import Mathlib

/-!
Verification of the Nexus centralized scheduler (`src/nexus/scheduler/scheduler.h`).

The header declares the scheduler's data model (`ModelInfo`, the `frontends_`,
`backends_`, `model_table_` tables, `unassigned_workloads_`) and the operations
(`LoadModel`, `KeepAlive`, `UpdateBackendStats`, `Unregister`, `FindBestBackend`,
`BeaconCheck`, `EpochSchedule`, `AllocateUnassignedWorkloads`, ...).  Only
`ModelInfo::total_throughput` has an inline body in the repository; every other
operation is modelled here from the specification's description of its behaviour.

C++ `unordered_map`s are embedded as association lists (`List (κ × α)`) with
no-duplicate-key well-formedness where it matters; `double`/`float` throughput
values are embedded as exact rationals (the claims are about the algorithms, not
about rounding).
-/

namespace NexusScheduler

/-! ### Definitions: data model and operations -/

variable {κ : Type} {α : Type} [DecidableEq κ]

/-- Keys of an association list. -/
def keysOf (l : List (κ × α)) : List κ := l.map (fun p => p.1)

/-- Lookup in an association list: the value of the first entry with the key. -/
def alookup (k : κ) : List (κ × α) → Option α
  | [] => none
  | p :: t => if p.1 = k then some p.2 else alookup k t

/-- Remove every entry with the given key. -/
def eraseKey (k : κ) (l : List (κ × α)) : List (κ × α) :=
  l.filter (fun p => p.1 ≠ k)

/-- Apply a function to the value of every entry with the given key. -/
def mapVal (k : κ) (f : α → α) (l : List (κ × α)) : List (κ × α) :=
  l.map (fun p => if p.1 = k then (p.1, f p.2) else p)

/-- If the key is present, apply `f` to its value; otherwise append `(k, d)`. -/
def upsert (k : κ) (f : α → α) (d : α) (l : List (κ × α)) : List (κ × α) :=
  if (alookup k l).isSome then mapVal k f l else l ++ [(k, d)]

/-- Sum of the values of an association list (values in a commutative monoid). -/
def sumVals (l : List (κ × ℚ)) : ℚ := (l.map (fun p => p.2)).sum

/-- Per-model-session record, from `struct ModelInfo` in `scheduler.h`:
`backend_throughputs` maps backend node id to assigned RPS, `subscribers` is the
set of frontend node ids, `rps_history` the deque of recent RPS measurements. -/
structure ModelInfo where
  backend_throughputs : List (ℕ × ℚ)
  subscribers : List ℕ
  rps_history : List ℚ
  deriving DecidableEq

/-- From `ModelInfo::total_throughput` in `scheduler.h`: starts a running total at
zero and adds `iter.second` for every entry of `backend_throughputs`. -/
def ModelInfo.total_throughput (m : ModelInfo) : ℚ :=
  m.backend_throughputs.foldl (fun total p => total + p.2) 0

/-- Modelled from the spec: `BackendDelegate` (collaborator, §3 BackendRecord) —
declared capacity, `instances` mapping model session id to reserved RPS,
`exclusive` flag, and `last_beacon` timestamp.  The batch-size / memory parts of
`ModelInstanceConfig` play no role in the claims and are elided. -/
structure BackendDelegate where
  capacity : ℚ
  instances : List (String × ℚ)
  exclusive : Bool
  last_beacon : ℚ
  deriving DecidableEq

/-- Modelled from the spec: `FrontendDelegate` (§3 FrontendRecord) — the set of
subscribed model session ids and the `last_beacon` timestamp. -/
structure FrontendDelegate where
  subscriptions : List String
  last_beacon : ℚ
  deriving DecidableEq

/-- Modelled from the spec (§3): `available_throughput` is the derived scalar
declared capacity minus the sum of reserved throughputs. -/
def BackendDelegate.available_throughput (b : BackendDelegate) : ℚ :=
  b.capacity - sumVals b.instances

/-- Modelled from the spec (§4.1): `Throughput(session_id) → rps`, the RPS the
backend has reserved for the session (zero when it hosts no instance of it). -/
def BackendDelegate.Throughput (b : BackendDelegate) (m : String) : ℚ :=
  (alookup m b.instances).getD 0

/-- The scheduler's mutable state: the three tables (`frontends_`, `backends_`,
`model_table_`), `unassigned_workloads_`, the static workload configuration and
its assignment map, and the configuration scalars, as declared in `scheduler.h`.
`next_node_id` models the scheduler-side allocation of globally unique node ids
(spec §3: zero reserved, never reused). -/
structure SchedulerState where
  next_node_id : ℕ
  frontends : List (ℕ × FrontendDelegate)
  backends : List (ℕ × BackendDelegate)
  model_table : List (String × ModelInfo)
  unassigned_workloads : List (String × ℚ)
  static_workloads : List (List (String × ℚ))
  assigned_static_workloads : List (ℕ × ℕ)
  beacon_interval_sec : ℕ
  history_len : ℕ
  deriving DecidableEq

/-- Modelled from the spec (§4.1): `PrepareLoadModel(session, request_rate)`.
The profile oracle is abstracted to capacity arithmetic: the load is feasible
iff the requested rate fits in the backend's remaining (available) throughput,
and the returned score is the remaining-capacity fraction after the
hypothetical load; `none` is `NotFeasible`.  It does not mutate. -/
def PrepareLoadModel (b : BackendDelegate) (request_rate : ℚ) : Option ℚ :=
  if request_rate ≤ b.available_throughput then
    some ((b.available_throughput - request_rate) / b.capacity)
  else none

/-- Strict preference between scored candidates `(node_id, score)`: smaller
remaining-capacity fraction wins, ties broken by the lower node id. -/
def BetterCandidate (c d : ℕ × ℚ) : Prop :=
  c.2 < d.2 ∨ (c.2 = d.2 ∧ c.1 < d.1)

instance (c d : ℕ × ℚ) : Decidable (BetterCandidate c d) := by
  unfold BetterCandidate
  infer_instance

/-- Fold underlying `FindBestBackend`: scan the backend table keeping the best
feasible candidate seen so far. -/
def FindBestBackendGo (request_rate : ℚ) (skips : List ℕ) :
    Option (ℕ × ℚ) → List (ℕ × BackendDelegate) → Option (ℕ × ℚ)
  | best, [] => best
  | best, p :: t =>
    if p.1 ∈ skips ∨ p.2.exclusive = true then
      FindBestBackendGo request_rate skips best t
    else
      match PrepareLoadModel p.2 request_rate with
      | none => FindBestBackendGo request_rate skips best t
      | some sc =>
        match best with
        | none => FindBestBackendGo request_rate skips (some (p.1, sc)) t
        | some b =>
          if BetterCandidate (p.1, sc) b then
            FindBestBackendGo request_rate skips (some (p.1, sc)) t
          else
            FindBestBackendGo request_rate skips best t

/-- Modelled from the spec (§4.3): `FindBestBackend(session, request_rate, skips)`
iterates over all backends not in `skips` and not exclusive, asks
`PrepareLoadModel`, accepts only feasible candidates, and picks the one with the
smallest remaining-capacity fraction after the hypothetical load, ties broken by
the lower node id; `none` when no candidate is feasible.  (The model session
itself is irrelevant to the capacity oracle and is elided from the arguments.) -/
def FindBestBackend (request_rate : ℚ) (skips : List ℕ)
    (backends : List (ℕ × BackendDelegate)) : Option (ℕ × ℚ) :=
  FindBestBackendGo request_rate skips none backends

/-- The scored feasible candidates of a backend table: node ids not skipped,
not exclusive, with a feasible `PrepareLoadModel`, paired with their score. -/
def CandidateScores (request_rate : ℚ) (skips : List ℕ)
    (backends : List (ℕ × BackendDelegate)) : List (ℕ × ℚ) :=
  backends.filterMap (fun p =>
    if p.1 ∈ skips ∨ p.2.exclusive = true then none
    else (PrepareLoadModel p.2 request_rate).map (fun sc => (p.1, sc)))

/-- Modelled from the spec (§4.3, AllocateUnassignedWorkloads): record a
reservation of `r` RPS for session `m` on backend `bid` in both
`model_table[m].backend_throughputs` and the backend's `instances`, creating
the `ModelInfo` on first load (§3 lifecycle); an existing reservation for the
same pair is topped up by `r`. -/
def LoadModelOn (st : SchedulerState) (m : String) (bid : ℕ) (r : ℚ) :
    SchedulerState :=
  { st with
    backends := mapVal bid
      (fun b => { b with instances := upsert m (fun v => v + r) r b.instances })
      st.backends,
    model_table := upsert m
      (fun i =>
        { i with backend_throughputs :=
                   upsert bid (fun v => v + r) r i.backend_throughputs })
      { backend_throughputs := [(bid, r)], subscribers := [], rps_history := [] }
      st.model_table }

/-- Modelled from the spec (§4.1 `UpdateModelThroughput`, used by the epoch
shrink step §4.6.3): re-reserve session `m` on backend `bid` at exactly `v`
RPS, in both tables. -/
def SetReservation (st : SchedulerState) (m : String) (bid : ℕ) (v : ℚ) :
    SchedulerState :=
  { st with
    backends := mapVal bid
      (fun b => { b with instances := mapVal m (fun _ => v) b.instances })
      st.backends,
    model_table := mapVal m
      (fun i =>
        { i with backend_throughputs :=
                   mapVal bid (fun _ => v) i.backend_throughputs })
      st.model_table }

/-- Modelled from the spec (§4.1 `UnloadModel`): drop session `m` from backend
`bid`, in both tables. -/
def UnloadModelFrom (st : SchedulerState) (m : String) (bid : ℕ) :
    SchedulerState :=
  { st with
    backends := mapVal bid
      (fun b => { b with instances := eraseKey m b.instances })
      st.backends,
    model_table := mapVal m
      (fun i =>
        { i with backend_throughputs :=
                   eraseKey bid i.backend_throughputs })
      st.model_table }

/-- Drop the instance of session `m` from a backend's reservations. -/
def dropInstance (m : String) (b : BackendDelegate) : BackendDelegate :=
  { b with instances := eraseKey m b.instances }

/-- Modelled from the spec (§4.3 RemoveFrontend): unload session `m` from every
backend that serves it and delete its `ModelInfo`. -/
def DeleteSession (st : SchedulerState) (m : String) : SchedulerState :=
  { st with
    model_table := eraseKey m st.model_table,
    backends := st.backends.map (fun p => (p.1, dropInstance m p.2)) }

/-- Modelled from the spec (§3): session `m` has static-slot backing iff some
assigned static workload slot declares it. -/
def StaticBacked (st : SchedulerState) (m : String) : Bool :=
  st.assigned_static_workloads.any
    (fun p => (alookup m (st.static_workloads.getD p.1 [])).isSome)

/-- Modelled from the spec (§4.3): the in-order walk of
`AllocateUnassignedWorkloads` over the pending entries.  A winner found by
`FindBestBackend` absorbs the entry; entries that find no home are put back. -/
def AllocateGo (st : SchedulerState) : List (String × ℚ) → SchedulerState
  | [] => st
  | e :: t =>
    match FindBestBackend e.2 [] st.backends with
    | some (bid, _) => AllocateGo (LoadModelOn st e.1 bid e.2) t
    | none =>
      AllocateGo { st with unassigned_workloads := st.unassigned_workloads ++ [e] } t

/-- Modelled from the spec (§4.3): walk `unassigned_workloads` in order; for
each entry run `FindBestBackend` with no skips; allocate winners and keep the
rest pending. -/
def AllocateUnassignedWorkloads (st : SchedulerState) : SchedulerState :=
  AllocateGo { st with unassigned_workloads := [] } st.unassigned_workloads

/-- Status values of the control RPC surface (spec §6). -/
inductive CtrlStatus where
  | ok
  | unknownNode
  | modelSessionNotLoaded
  | notEnoughBackends
  | invalidRequest
  deriving DecidableEq

/-- From the header doc of `Scheduler::GetBackend`: the backend delegate for the
node id if found, otherwise nullptr (`none`); a pure lookup. -/
def GetBackend (st : SchedulerState) (node_id : ℕ) : Option BackendDelegate :=
  alookup node_id st.backends

/-- From the header doc of `Scheduler::GetFrontend`: the frontend delegate for
the node id if found, otherwise nullptr (`none`); a pure lookup. -/
def GetFrontend (st : SchedulerState) (node_id : ℕ) : Option FrontendDelegate :=
  alookup node_id st.frontends

/-- Modelled from the spec (§4.3 RemoveBackend steps 2–3): for one workload the
removed backend `bid` was serving, try `FindBestBackend` with `skips = [bid]`;
reassign to the winner or append the workload to `unassigned_workloads`. -/
def ReassignStep (bid : ℕ) (s : SchedulerState) (e : String × ℚ) :
    SchedulerState :=
  match FindBestBackend e.2 [bid] s.backends with
  | some (bid2, _) => LoadModelOn s e.1 bid2 e.2
  | none => { s with unassigned_workloads := s.unassigned_workloads ++ [e] }

/-- Drop backend `bid` from a session's `backend_throughputs`. -/
def dropThroughput (bid : ℕ) (i : ModelInfo) : ModelInfo :=
  { i with backend_throughputs := eraseKey bid i.backend_throughputs }

/-- Modelled from the spec (§4.3 RemoveBackend): drop the backend's record and
its slot assignment, remove it from every session's `backend_throughputs`, then
for each workload it served run `ReassignStep`. -/
def RemoveBackend (st : SchedulerState) (bid : ℕ) : SchedulerState :=
  match GetBackend st bid with
  | none => st
  | some b =>
    let st1 : SchedulerState :=
      { st with
        backends := eraseKey bid st.backends,
        model_table := st.model_table.map
          (fun p => (p.1, dropThroughput bid p.2)),
        assigned_static_workloads :=
          st.assigned_static_workloads.filter (fun p => p.2 ≠ bid) }
    b.instances.foldl (ReassignStep bid) st1

/-- Modelled from the spec (§4.3 RemoveFrontend): remove the frontend from the
session's subscribers; when the session is left with no subscribers and no
static-slot backing, unload it everywhere and delete the `ModelInfo`. -/
def DropSubscriber (st : SchedulerState) (m : String) (fid : ℕ) : SchedulerState :=
  match alookup m st.model_table with
  | none => st
  | some info =>
    if info.subscribers.filter (fun x => x ≠ fid) = [] ∧ StaticBacked st m = false
    then DeleteSession st m
    else
      { st with model_table :=
                  mapVal m
                    (fun i =>
                      { i with subscribers :=
                                 i.subscribers.filter (fun x => x ≠ fid) })
                    st.model_table }

/-- Modelled from the spec (§4.3 RemoveFrontend): drop the frontend's record
and walk its subscriptions with `DropSubscriber`. -/
def RemoveFrontend (st : SchedulerState) (fid : ℕ) : SchedulerState :=
  match GetFrontend st fid with
  | none => st
  | some fr =>
    let st1 := { st with frontends := eraseKey fid st.frontends }
    fr.subscriptions.foldl (fun s m => DropSubscriber s m fid) st1

/-- Modelled from the spec (§4.3 AddBackend): the lowest-index unassigned
static workload slot whose declarations all fit on the backend. -/
def FirstFreeSlot (assigned : List (ℕ × ℕ)) (b : BackendDelegate) :
    List (List (String × ℚ)) → ℕ → Option ℕ
  | [], _ => none
  | g :: t, i =>
    if alookup i assigned = none ∧ sumVals g ≤ b.available_throughput then some i
    else FirstFreeSlot assigned b t (i + 1)

/-- Modelled from the spec (§4.3 AddBackend): claim static slot `i` for backend
`bid` — mark it exclusive, record the assignment, load the declared instances. -/
def ClaimSlot (st : SchedulerState) (bid : ℕ) (i : ℕ) : SchedulerState :=
  let g := st.static_workloads.getD i []
  let st1 := { st with
    backends := mapVal bid (fun b => { b with exclusive := true }) st.backends,
    assigned_static_workloads := st.assigned_static_workloads ++ [(i, bid)] }
  g.foldl (fun s e => LoadModelOn s e.1 bid e.2) st1

/-- Modelled from the spec (§4.3 AddBackend): on registration first try to
claim a static slot; otherwise absorb pending unassigned workloads. -/
def AddBackend (st : SchedulerState) (bid : ℕ) : SchedulerState :=
  match GetBackend st bid with
  | none => st
  | some b =>
    match FirstFreeSlot st.assigned_static_workloads b st.static_workloads 0 with
    | some i => ClaimSlot st bid i
    | none => AllocateUnassignedWorkloads st

/-- A newly registered backend delegate: declared capacity, no instances. -/
def freshBackend (cap now : ℚ) : BackendDelegate :=
  { capacity := cap, instances := [], exclusive := false, last_beacon := now }

/-- Store a new backend under a fresh node id. -/
def AppendBackend (st : SchedulerState) (cap now : ℚ) : SchedulerState :=
  { st with
    next_node_id := st.next_node_id + 1,
    backends := st.backends ++ [(st.next_node_id, freshBackend cap now)] }

/-- Modelled from the spec (§4.2 Register, backend case): allocate a fresh node
id, store the delegate with `last_beacon = now`, and run `AddBackend`. -/
def RegisterBackend (st : SchedulerState) (capacity : ℚ) (now : ℚ) :
    SchedulerState :=
  AddBackend (AppendBackend st capacity now) st.next_node_id

/-- Modelled from the spec (§4.2 Register, frontend case): allocate a fresh
node id and store the delegate with `last_beacon = now`. -/
def RegisterFrontend (st : SchedulerState) (now : ℚ) : SchedulerState :=
  { st with
    next_node_id := st.next_node_id + 1,
    frontends := st.frontends ++
      [(st.next_node_id, { subscriptions := [], last_beacon := now })] }

/-- Modelled from the spec (§4.2 Unregister, §6): remove the record, running
the corresponding cleanup; `UNKNOWN_NODE` and no state change otherwise. -/
def Unregister (st : SchedulerState) (node_id : ℕ) : CtrlStatus × SchedulerState :=
  if (alookup node_id st.frontends).isSome then
    (CtrlStatus.ok, RemoveFrontend st node_id)
  else if (alookup node_id st.backends).isSome then
    (CtrlStatus.ok, RemoveBackend st node_id)
  else (CtrlStatus.unknownNode, st)

/-- Modelled from the spec (§4.2 LoadModel): subscribe the frontend to the
session. -/
def SubscribeFrontend (st : SchedulerState) (fid : ℕ) (m : String) :
    SchedulerState :=
  { st with frontends :=
              mapVal fid
                (fun f =>
                  { f with subscriptions :=
                             if m ∈ f.subscriptions then f.subscriptions
                             else f.subscriptions ++ [m] })
                st.frontends }

/-- Modelled from the spec (§4.2 LoadModel): ensure `model_table[session]`
exists, with the frontend among its subscribers. -/
def EnsureModelInfo (st : SchedulerState) (fid : ℕ) (m : String) :
    SchedulerState :=
  { st with model_table :=
              upsert m
                (fun i =>
                  { i with subscribers :=
                             if fid ∈ i.subscribers then i.subscribers
                             else i.subscribers ++ [fid] })
                { backend_throughputs := [], subscribers := [fid],
                  rps_history := [] }
                st.model_table }

/-- Modelled from the spec (§4.2): a session is backed when it has at least
one backend assignment. -/
def SessionBacked (st : SchedulerState) (m : String) : Bool :=
  match alookup m st.model_table with
  | some i => !i.backend_throughputs.isEmpty
  | none => false

/-- The state transformation of the LoadModel RPC (its reply status aside). -/
def LoadModelState (st : SchedulerState) (fid : ℕ) (m : String) (r : ℚ) :
    SchedulerState :=
  let st2 := EnsureModelInfo (SubscribeFrontend st fid m) fid m
  let st3 := if SessionBacked st2 m then st2
    else { st2 with unassigned_workloads := st2.unassigned_workloads ++ [(m, r)] }
  AllocateUnassignedWorkloads st3

/-- Modelled from the spec (§4.2 LoadModel): subscribe the frontend, ensure the
`ModelInfo` exists, append `(session, rps)` to `unassigned_workloads` iff the
session is not already backed, run `AllocateUnassignedWorkloads`; reply
`NOT_ENOUGH_BACKENDS` when the session still has a pending entry (§7),
`UNKNOWN_NODE` and no state change for an unknown frontend. -/
def LoadModel (st : SchedulerState) (fid : ℕ) (m : String) (r : ℚ) :
    CtrlStatus × SchedulerState :=
  match GetFrontend st fid with
  | none => (CtrlStatus.unknownNode, st)
  | some _ =>
    (if (LoadModelState st fid m r).unassigned_workloads.any
        (fun e => decide (e.1 = m)) then
      CtrlStatus.notEnoughBackends
    else CtrlStatus.ok, LoadModelState st fid m r)

/-- Modelled from the spec (§4.2 KeepAlive): stamp `last_beacon = now` on the
node's record; `UNKNOWN_NODE` and no state change for an unknown node. -/
def KeepAlive (st : SchedulerState) (node_id : ℕ) (now : ℚ) :
    CtrlStatus × SchedulerState :=
  if (alookup node_id st.frontends).isSome then
    (CtrlStatus.ok,
      { st with frontends :=
                  mapVal node_id (fun f => { f with last_beacon := now })
                    st.frontends })
  else if (alookup node_id st.backends).isSome then
    (CtrlStatus.ok,
      { st with backends :=
                  mapVal node_id (fun b => { b with last_beacon := now })
                    st.backends })
  else (CtrlStatus.unknownNode, st)

/-- Keep the last `n` elements: the history deque truncation of §4.2. -/
def truncateHistory (n : ℕ) (l : List ℚ) : List ℚ := l.drop (l.length - n)

/-- Modelled from the spec (§4.2 UpdateBackendStats): append every sample to
the session's `rps_history`, truncated to `history_len`; `UNKNOWN_NODE` and no
state change for an unknown backend. -/
def UpdateBackendStats (st : SchedulerState) (bid : ℕ)
    (samples : List (String × ℚ)) : CtrlStatus × SchedulerState :=
  match GetBackend st bid with
  | none => (CtrlStatus.unknownNode, st)
  | some _ =>
    (CtrlStatus.ok, samples.foldl (fun s e =>
      { s with model_table :=
                 mapVal e.1
                   (fun i =>
                     { i with rps_history :=
                                truncateHistory s.history_len
                                  (i.rps_history ++ [e.2]) })
                   s.model_table }) st)

/-- Beacon expiry timeout: `1.5 × beacon_interval_sec` (spec §4.5.3). -/
def BeaconTimeout (interval : ℕ) : ℚ := 3 * interval / 2

/-- Modelled from the spec (§4.5.1): the backends scheduled for removal — those
whose `last_beacon` is older than the beacon timeout. -/
def DeadBackends (st : SchedulerState) (now : ℚ) : List ℕ :=
  (st.backends.filter (fun p =>
    decide (now - p.2.last_beacon > BeaconTimeout st.beacon_interval_sec))).map
    (fun p => p.1)

/-- Modelled from the spec (§4.5.2): the frontends scheduled for removal. -/
def DeadFrontends (st : SchedulerState) (now : ℚ) : List ℕ :=
  (st.frontends.filter (fun p =>
    decide (now - p.2.last_beacon > BeaconTimeout st.beacon_interval_sec))).map
    (fun p => p.1)

/-- Modelled from the spec (§4.5 BeaconLoop): schedule for removal every
backend and frontend whose `last_beacon` is older than the timeout, and remove
each through the same cleanup paths as a voluntary unregister. -/
def BeaconCheck (st : SchedulerState) (now : ℚ) : SchedulerState :=
  (DeadFrontends st now).foldl RemoveFrontend
    ((DeadBackends st now).foldl RemoveBackend st)

/-- Maximum of a nonempty list of rationals, as a fold. -/
def maxRList (h : ℚ) (t : List ℚ) : ℚ := t.foldl max h

/-- Modelled from the spec (§4.6.1): `measured_rps` is the maximum entry of the
session's `rps_history`, or the current `total_throughput` when it is empty. -/
def MeasuredRps (info : ModelInfo) : ℚ :=
  match info.rps_history with
  | [] => info.total_throughput
  | h :: t => maxRList h t

/-- Over-provision slack (spec §4.6.2, default 0.1). -/
def over_provision_slack : ℚ := 1 / 10

/-- Under-provision slack (spec §4.6.3, default 0.1). -/
def under_provision_slack : ℚ := 1 / 10

/-- The entry of `backend_throughputs` with the smallest assignment (ties to
the lower node id), as selected by the epoch shrink step (§4.6.3). -/
def MinAssignment : List (ℕ × ℚ) → Option (ℕ × ℚ)
  | [] => none
  | p :: t =>
    match MinAssignment t with
    | none => some p
    | some q => if p.2 < q.2 ∨ (p.2 = q.2 ∧ p.1 < q.1) then some p else some q

/-- Modelled from the spec (§4.6.3): repeatedly unload the smallest assignment
while the total stays at or above the target, then reduce the last one so the
total equals the target.  Fuel is the number of assignments, which bounds the
number of unloads. -/
def ShrinkGo (m : String) (target : ℚ) : SchedulerState → ℕ → SchedulerState
  | st, 0 => st
  | st, fuel + 1 =>
    match alookup m st.model_table with
    | none => st
    | some info =>
      if info.total_throughput ≤ target then st
      else
        match MinAssignment info.backend_throughputs with
        | none => st
        | some (bid, r) =>
          if target ≤ info.total_throughput - r then
            ShrinkGo m target (UnloadModelFrom st m bid) fuel
          else SetReservation st m bid (r - (info.total_throughput - target))

/-- Modelled from the spec (§4.6): the per-session epoch decision — grow by
appending the deficit to `unassigned_workloads` when the measured RPS exceeds
`total × (1 + over_provision_slack)`, shrink toward the measured RPS when it is
below `total × (1 − under_provision_slack)` (dropping a session left with no
assignment and no subscriber, §8 boundary case), and otherwise leave the
session untouched. -/
def EpochSessionStep (st : SchedulerState) (m : String) : SchedulerState :=
  match alookup m st.model_table with
  | none => st
  | some info =>
    let total := info.total_throughput
    let measured := MeasuredRps info
    if measured > total * (1 + over_provision_slack) then
      { st with unassigned_workloads :=
          st.unassigned_workloads ++ [(m, measured - total)] }
    else if measured < total * (1 - under_provision_slack) then
      let st1 := ShrinkGo m measured st info.backend_throughputs.length
      match alookup m st1.model_table with
      | some info1 =>
        if info1.backend_throughputs = [] ∧ info1.subscribers = [] then
          DeleteSession st1 m
        else st1
      | none => st1
    else st

/-- Modelled from the spec (§4.6): the per-session pass of `EpochSchedule`
over every model session in `model_table`. -/
def EpochPass (st : SchedulerState) : SchedulerState :=
  (keysOf st.model_table).foldl EpochSessionStep st

/-- Modelled from the spec (§4.6): `EpochSchedule` runs the per-session pass
and then `AllocateUnassignedWorkloads`. -/
def EpochSchedule (st : SchedulerState) : SchedulerState :=
  AllocateUnassignedWorkloads (EpochPass st)

/-- Session id used by the concrete witness states. -/
def sessA : String := "tf:resnet50:1:50ms"

/-- Second session id used by the concrete witness states. -/
def sessB : String := "tf:bert:1:100ms"

/-- A small concrete scheduler state used to instantiate theorems: one backend
(node id 1, capacity 100) and one frontend (node id 2). -/
def sampleState : SchedulerState :=
  { next_node_id := 3,
    frontends := [(2, { subscriptions := [], last_beacon := 0 })],
    backends := [(1, { capacity := 100, instances := [], exclusive := false,
                       last_beacon := 0 })],
    model_table := [],
    unassigned_workloads := [],
    static_workloads := [],
    assigned_static_workloads := [],
    beacon_interval_sec := 4,
    history_len := 10 }

/-- `ModelInfo` of the epoch-grow witness: backed at 100 RPS with recent
history peaking at 200. -/
def epochInfo : ModelInfo :=
  { backend_throughputs := [(1, 100)], subscribers := [2],
    rps_history := [180, 190, 200] }

/-- Concrete state for the epoch-grow witness: backend 1 serves `sessA` at
100 RPS and the session's history peaks at 200. -/
def epochState : SchedulerState :=
  { next_node_id := 3,
    frontends := [(2, { subscriptions := [sessA], last_beacon := 0 })],
    backends := [(1, { capacity := 1000, instances := [(sessA, 100)],
                       exclusive := false, last_beacon := 0 })],
    model_table := [(sessA, epochInfo)],
    unassigned_workloads := [],
    static_workloads := [],
    assigned_static_workloads := [],
    beacon_interval_sec := 4,
    history_len := 10 }

/-- One backend table refines another when it has the same node ids, the same
capacities and exclusivity flags, and at most the available throughput — the
effect of further load reservations. -/
def BackendsDominated (l2 l1 : List (ℕ × BackendDelegate)) : Prop :=
  keysOf l2 = keysOf l1 ∧
  ∀ id b2 b1, alookup id l2 = some b2 → alookup id l1 = some b1 →
    b2.capacity = b1.capacity ∧ b2.exclusive = b1.exclusive ∧
    b2.available_throughput ≤ b1.available_throughput

/-- Concrete state for the allocation-idempotence witness: backend 1 has 40
RPS available; the pending 50-RPS entry cannot be placed while the 30-RPS
entry can. -/
def allocState : SchedulerState :=
  { next_node_id := 3,
    frontends := [(2, { subscriptions := [sessA, sessB], last_beacon := 0 })],
    backends := [(1, { capacity := 100, instances := [(sessA, 60)],
                       exclusive := false, last_beacon := 0 })],
    model_table := [(sessA, { backend_throughputs := [(1, 60)],
                              subscribers := [2], rps_history := [] }),
                    (sessB, { backend_throughputs := [],
                              subscribers := [2], rps_history := [] })],
    unassigned_workloads := [(sessB, 50), (sessA, 30)],
    static_workloads := [],
    assigned_static_workloads := [],
    beacon_interval_sec := 4,
    history_len := 10 }

/-- Counterexample state for the LoadModel/Unregister round trip: frontend 2
is the sole subscriber of `sessB`. -/
def cexState : SchedulerState :=
  { next_node_id := 3,
    frontends := [(2, { subscriptions := [sessB], last_beacon := 0 })],
    backends := [],
    model_table := [(sessB, { backend_throughputs := [], subscribers := [2],
                              rps_history := [] })],
    unassigned_workloads := [],
    static_workloads := [],
    assigned_static_workloads := [],
    beacon_interval_sec := 4,
    history_len := 10 }

/-- The cross-table consistency invariant of spec §3 (invariant 2 and its
converse): every `backend_throughputs` entry points at a live backend whose
`instances` carry the same reserved RPS, and every backend instance is
recorded in the session's `backend_throughputs`; together with the
well-formedness of the tables (no duplicate keys, node ids below the
allocation counter). -/
structure Inv (st : SchedulerState) : Prop where
  nodupB : (keysOf st.backends).Nodup
  nodupM : (keysOf st.model_table).Nodup
  nodupI : ∀ id b, alookup id st.backends = some b → (keysOf b.instances).Nodup
  nodupT : ∀ m i, alookup m st.model_table = some i →
    (keysOf i.backend_throughputs).Nodup
  bound : ∀ id ∈ keysOf st.backends, id < st.next_node_id
  forward : ∀ m i bid r, alookup m st.model_table = some i →
    alookup bid i.backend_throughputs = some r →
    ∃ b, alookup bid st.backends = some b ∧ alookup m b.instances = some r
  backward : ∀ bid b m r, alookup bid st.backends = some b →
    alookup m b.instances = some r →
    ∃ i, alookup m st.model_table = some i ∧
      alookup bid i.backend_throughputs = some r

/-- One completed mutation of the scheduler: an RPC handler or a periodic
pass, as serialized under the scheduler mutex. -/
inductive Step : SchedulerState → SchedulerState → Prop where
  | registerBackend (st : SchedulerState) (cap now : ℚ) :
      Step st (RegisterBackend st cap now)
  | registerFrontend (st : SchedulerState) (now : ℚ) :
      Step st (RegisterFrontend st now)
  | unregister (st : SchedulerState) (id : ℕ) : Step st (Unregister st id).2
  | loadModel (st : SchedulerState) (fid : ℕ) (m : String) (r : ℚ) :
      Step st (LoadModel st fid m r).2
  | updateStats (st : SchedulerState) (bid : ℕ)
      (samples : List (String × ℚ)) :
      Step st (UpdateBackendStats st bid samples).2
  | keepAlive (st : SchedulerState) (id : ℕ) (now : ℚ) :
      Step st (KeepAlive st id now).2
  | beacon (st : SchedulerState) (now : ℚ) : Step st (BeaconCheck st now)
  | epoch (st : SchedulerState) : Step st (EpochSchedule st)

/-- The boot state: empty tables, the configured static workloads, node id
counter starting above the reserved zero. -/
def InitState (slots : List (List (String × ℚ))) (beacon hist : ℕ) :
    SchedulerState :=
  { next_node_id := 1,
    frontends := [],
    backends := [],
    model_table := [],
    unassigned_workloads := [],
    static_workloads := slots,
    assigned_static_workloads := [],
    beacon_interval_sec := beacon,
    history_len := hist }

/-- States reachable from boot by completed mutations. -/
def Reachable (slots : List (List (String × ℚ))) (beacon hist : ℕ)
    (st : SchedulerState) : Prop :=
  Relation.ReflTransGen Step (InitState slots beacon hist) st

/-! ### Theorems -/

@[simp] theorem alookup_nil (k : κ) : alookup k ([] : List (κ × α)) = none := rfl

theorem alookup_cons (k : κ) (p : κ × α) (t : List (κ × α)) :
    alookup k (p :: t) = if p.1 = k then some p.2 else alookup k t := rfl

theorem alookup_eq_none_iff (k : κ) (l : List (κ × α)) :
    alookup k l = none ↔ k ∉ keysOf l := by
  induction l with
  | nil => simp [keysOf]
  | cons p t ih =>
    rw [alookup_cons]
    simp only [keysOf, List.map_cons, List.mem_cons]
    by_cases h : p.1 = k
    · subst h
      simp
    · have hk : ¬ k = p.1 := fun he => h he.symm
      simp [h, hk, keysOf] at ih ⊢
      exact ih

theorem alookup_isSome_iff (k : κ) (l : List (κ × α)) :
    (alookup k l).isSome = true ↔ k ∈ keysOf l := by
  rw [Option.isSome_iff_ne_none]
  constructor
  · intro h
    by_contra hk
    exact h ((alookup_eq_none_iff k l).2 hk)
  · intro h h2
    exact ((alookup_eq_none_iff k l).1 h2) h

theorem alookup_mem (k : κ) (v : α) (l : List (κ × α))
    (h : alookup k l = some v) : (k, v) ∈ l := by
  induction l with
  | nil => simp [alookup] at h
  | cons p t ih =>
    rw [alookup_cons] at h
    by_cases hp : p.1 = k
    · rw [if_pos hp] at h
      have hpe : p = (k, v) := by
        cases p with
        | mk a b =>
          simp at h hp
          simp [hp, h]
      rw [← hpe]
      exact List.mem_cons_self p t
    · rw [if_neg hp] at h
      exact List.mem_cons_of_mem p (ih h)

theorem mem_alookup (k : κ) (v : α) (l : List (κ × α))
    (hnd : (keysOf l).Nodup) (h : (k, v) ∈ l) : alookup k l = some v := by
  induction l with
  | nil => simp at h
  | cons p t ih =>
    have hnd2 : (keysOf t).Nodup := by
      simp only [keysOf, List.map_cons, List.nodup_cons] at hnd
      exact hnd.2
    have hp1 : p.1 ∉ keysOf t := by
      simp only [keysOf, List.map_cons, List.nodup_cons] at hnd
      exact hnd.1
    rcases List.mem_cons.1 h with he | hm
    · rw [← he, alookup_cons]
      simp
    · rw [alookup_cons]
      have hne : p.1 ≠ k := by
        intro heq
        apply hp1
        rw [heq]
        simp only [keysOf, List.mem_map]
        exact ⟨(k, v), hm, rfl⟩
      rw [if_neg hne]
      exact ih hnd2 hm

@[simp] theorem alookup_eraseKey_self (k : κ) (l : List (κ × α)) :
    alookup k (eraseKey k l) = none := by
  induction l with
  | nil => rfl
  | cons p t ih =>
    by_cases hp : p.1 = k
    · simpa [eraseKey, List.filter_cons, hp] using ih
    · simpa [eraseKey, List.filter_cons, hp, alookup_cons] using ih

theorem alookup_eraseKey_ne (k k' : κ) (l : List (κ × α)) (h : k' ≠ k) :
    alookup k' (eraseKey k l) = alookup k' l := by
  induction l with
  | nil => rfl
  | cons p t ih =>
    have hkk : ¬ (k = k') := fun he => h he.symm
    by_cases hp : p.1 = k
    · simpa [eraseKey, List.filter_cons, hp, alookup_cons, hkk] using ih
    · by_cases hp2 : p.1 = k'
      · simp [eraseKey, List.filter_cons, hp, alookup_cons, hp2, h]
      · simpa [eraseKey, List.filter_cons, hp, alookup_cons, hp2, h] using ih

theorem keysOf_eraseKey_subset (k : κ) (l : List (κ × α)) :
    ∀ x ∈ keysOf (eraseKey k l), x ∈ keysOf l ∧ x ≠ k := by
  intro x hx
  simp only [keysOf, eraseKey, List.mem_map] at hx
  obtain ⟨p, hp, hpx⟩ := hx
  have h1 := List.mem_of_mem_filter hp
  have h2 : p.1 ≠ k := by simpa using List.of_mem_filter hp
  refine ⟨?_, hpx ▸ h2⟩
  simp only [keysOf, List.mem_map]
  exact ⟨p, h1, hpx⟩

theorem nodup_keysOf_eraseKey (k : κ) (l : List (κ × α))
    (h : (keysOf l).Nodup) : (keysOf (eraseKey k l)).Nodup := by
  simp only [keysOf, eraseKey] at h ⊢
  exact List.Nodup.sublist ((List.filter_sublist l).map (fun p => p.1)) h

theorem alookup_mapVal_self (k : κ) (f : α → α) (l : List (κ × α)) :
    alookup k (mapVal k f l) = (alookup k l).map f := by
  induction l with
  | nil => rfl
  | cons p t ih =>
    by_cases hp : p.1 = k
    · simp [mapVal, alookup_cons, hp]
    · simpa [mapVal, alookup_cons, hp] using ih

theorem alookup_mapVal_ne (k k' : κ) (f : α → α) (l : List (κ × α)) (h : k' ≠ k) :
    alookup k' (mapVal k f l) = alookup k' l := by
  induction l with
  | nil => rfl
  | cons p t ih =>
    have hkk : ¬ (k = k') := fun he => h he.symm
    by_cases hp : p.1 = k
    · simpa [mapVal, alookup_cons, hp, hkk] using ih
    · by_cases hp2 : p.1 = k'
      · simp [mapVal, alookup_cons, hp, hp2, h]
      · simpa [mapVal, alookup_cons, hp, hp2, h] using ih

@[simp] theorem keysOf_mapVal (k : κ) (f : α → α) (l : List (κ × α)) :
    keysOf (mapVal k f l) = keysOf l := by
  unfold keysOf mapVal
  rw [List.map_map]
  refine List.map_congr_left ?_
  intro p hp
  by_cases h : p.1 = k <;> simp [h]

theorem alookup_append (k : κ) (l l2 : List (κ × α)) :
    alookup k (l ++ l2) = (alookup k l).or (alookup k l2) := by
  induction l with
  | nil => simp
  | cons p t ih =>
    by_cases hp : p.1 = k
    · simp [alookup_cons, hp]
    · simpa [alookup_cons, hp] using ih

theorem alookup_upsert_self (k : κ) (f : α → α) (d : α) (l : List (κ × α)) :
    alookup k (upsert k f d l) =
      some (match alookup k l with | some v => f v | none => d) := by
  unfold upsert
  cases h : alookup k l with
  | some v => simp [h, alookup_mapVal_self]
  | none => simp [h, alookup_append, alookup_cons]

theorem alookup_upsert_ne (k k' : κ) (f : α → α) (d : α) (l : List (κ × α))
    (h : k' ≠ k) : alookup k' (upsert k f d l) = alookup k' l := by
  unfold upsert
  by_cases hs : (alookup k l).isSome
  · simp [hs, alookup_mapVal_ne k k' f l h]
  · have hk : ¬ (k = k') := fun he => h he.symm
    simp [hs, alookup_append, alookup_cons, hk]

theorem keysOf_upsert_nodup (k : κ) (f : α → α) (d : α) (l : List (κ × α))
    (h : (keysOf l).Nodup) : (keysOf (upsert k f d l)).Nodup := by
  unfold upsert
  by_cases hs : (alookup k l).isSome
  · simpa [hs] using h
  · rw [if_neg hs]
    have hk : k ∉ keysOf l := by
      rw [← alookup_isSome_iff k l]
      simpa using hs
    have hke : keysOf (l ++ [(k, d)]) = keysOf l ++ [k] := by
      simp [keysOf]
    rw [hke]
    refine List.Nodup.append h (List.nodup_singleton k) ?_
    intro x hx hmem
    have hxk : x = k := by simpa using hmem
    exact hk (hxk ▸ hx)

theorem foldl_add_sumVals (l : List (ℕ × ℚ)) (a : ℚ) :
    l.foldl (fun total p => total + p.2) a = a + sumVals l := by
  induction l generalizing a with
  | nil => simp [sumVals]
  | cons p t ih =>
    simp only [List.foldl_cons, ih, sumVals, List.map_cons, List.sum_cons]
    ring

theorem betterCandidate_trans (a b c : ℕ × ℚ) :
    BetterCandidate a b → BetterCandidate b c → BetterCandidate a c := by
  unfold BetterCandidate
  rintro (h1 | ⟨h1, h1a⟩) (h2 | ⟨h2, h2a⟩)
  · exact Or.inl (lt_trans h1 h2)
  · exact Or.inl (h2 ▸ h1)
  · exact Or.inl (h1 ▸ h2)
  · exact Or.inr ⟨h1.trans h2, lt_trans h1a h2a⟩

theorem betterCandidate_total (c d : ℕ × ℚ) :
    BetterCandidate c d ∨ BetterCandidate d c ∨ c = d := by
  unfold BetterCandidate
  rcases lt_trichotomy c.2 d.2 with h | h | h
  · exact Or.inl (Or.inl h)
  · rcases lt_trichotomy c.1 d.1 with h2 | h2 | h2
    · exact Or.inl (Or.inr ⟨h, h2⟩)
    · exact Or.inr (Or.inr (Prod.ext h2 h))
    · exact Or.inr (Or.inl (Or.inr ⟨h.symm, h2⟩))
  · exact Or.inr (Or.inl (Or.inl h))

theorem candidateScores_cons (r : ℚ) (s : List ℕ) (p : ℕ × BackendDelegate)
    (t : List (ℕ × BackendDelegate)) :
    CandidateScores r s (p :: t) =
      (if p.1 ∈ s ∨ p.2.exclusive = true then ([] : List (ℕ × ℚ))
       else match PrepareLoadModel p.2 r with
            | some sc => [(p.1, sc)]
            | none => []) ++ CandidateScores r s t := by
  unfold CandidateScores
  rw [List.filterMap_cons]
  by_cases h : p.1 ∈ s ∨ p.2.exclusive = true
  · simp [h]
  · cases hp : PrepareLoadModel p.2 r <;> simp [h, hp]

theorem findBestGo_nil (r : ℚ) (s : List ℕ) (best : Option (ℕ × ℚ)) :
    FindBestBackendGo r s best [] = best := rfl

theorem findBestGo_cons_skip (r : ℚ) (s : List ℕ) (best : Option (ℕ × ℚ))
    (p : ℕ × BackendDelegate) (t : List (ℕ × BackendDelegate))
    (h : p.1 ∈ s ∨ p.2.exclusive = true) :
    FindBestBackendGo r s best (p :: t) = FindBestBackendGo r s best t := by
  simp only [FindBestBackendGo]
  rw [if_pos h]

theorem findBestGo_cons_infeasible (r : ℚ) (s : List ℕ) (best : Option (ℕ × ℚ))
    (p : ℕ × BackendDelegate) (t : List (ℕ × BackendDelegate))
    (h : ¬ (p.1 ∈ s ∨ p.2.exclusive = true)) (hp : PrepareLoadModel p.2 r = none) :
    FindBestBackendGo r s best (p :: t) = FindBestBackendGo r s best t := by
  simp only [FindBestBackendGo]
  rw [if_neg h, hp]

theorem findBestGo_cons_first (r : ℚ) (s : List ℕ) (sc : ℚ)
    (p : ℕ × BackendDelegate) (t : List (ℕ × BackendDelegate))
    (h : ¬ (p.1 ∈ s ∨ p.2.exclusive = true)) (hp : PrepareLoadModel p.2 r = some sc) :
    FindBestBackendGo r s none (p :: t) =
      FindBestBackendGo r s (some (p.1, sc)) t := by
  simp only [FindBestBackendGo]
  rw [if_neg h, hp]

theorem findBestGo_cons_better (r : ℚ) (s : List ℕ) (sc : ℚ) (b : ℕ × ℚ)
    (p : ℕ × BackendDelegate) (t : List (ℕ × BackendDelegate))
    (h : ¬ (p.1 ∈ s ∨ p.2.exclusive = true)) (hp : PrepareLoadModel p.2 r = some sc)
    (hb : BetterCandidate (p.1, sc) b) :
    FindBestBackendGo r s (some b) (p :: t) =
      FindBestBackendGo r s (some (p.1, sc)) t := by
  simp only [FindBestBackendGo]
  rw [if_neg h, hp]
  simp [hb]

theorem findBestGo_cons_keep (r : ℚ) (s : List ℕ) (sc : ℚ) (b : ℕ × ℚ)
    (p : ℕ × BackendDelegate) (t : List (ℕ × BackendDelegate))
    (h : ¬ (p.1 ∈ s ∨ p.2.exclusive = true)) (hp : PrepareLoadModel p.2 r = some sc)
    (hb : ¬ BetterCandidate (p.1, sc) b) :
    FindBestBackendGo r s (some b) (p :: t) =
      FindBestBackendGo r s (some b) t := by
  simp only [FindBestBackendGo]
  rw [if_neg h, hp]
  simp [hb]

theorem findBestGo_eq_none (r : ℚ) (s : List ℕ) (l : List (ℕ × BackendDelegate)) :
    ∀ best, FindBestBackendGo r s best l = none ↔
      (best = none ∧ CandidateScores r s l = []) := by
  induction l with
  | nil =>
    intro best
    simp [findBestGo_nil, CandidateScores]
  | cons p t ih =>
    intro best
    rw [candidateScores_cons]
    by_cases h : p.1 ∈ s ∨ p.2.exclusive = true
    · rw [findBestGo_cons_skip r s best p t h, ih, if_pos h]
      simp
    · cases hp : PrepareLoadModel p.2 r with
      | none =>
        rw [findBestGo_cons_infeasible r s best p t h hp, ih, if_neg h]
        simp
      | some sc =>
        rw [if_neg h]
        cases best with
        | none =>
          rw [findBestGo_cons_first r s sc p t h hp, ih]
          simp
        | some b =>
          by_cases hb : BetterCandidate (p.1, sc) b
          · rw [findBestGo_cons_better r s sc b p t h hp hb, ih]
            simp
          · rw [findBestGo_cons_keep r s sc b p t h hp hb, ih]
            simp

theorem findBestGo_some_spec (r : ℚ) (s : List ℕ) (l : List (ℕ × BackendDelegate)) :
    ∀ best c, FindBestBackendGo r s best l = some c →
      (best = some c ∨ c ∈ CandidateScores r s l) ∧
      (∀ b, best = some b → BetterCandidate c b ∨ c = b) ∧
      (∀ d ∈ CandidateScores r s l, BetterCandidate c d ∨ c = d) := by
  induction l with
  | nil =>
    intro best c h
    rw [findBestGo_nil] at h
    refine ⟨Or.inl h, ?_, ?_⟩
    · intro b hb
      rw [h] at hb
      injection hb with hcb
      exact Or.inr hcb
    · intro d hd
      simp [CandidateScores] at hd
  | cons p t ih =>
    intro best c hgo
    rw [candidateScores_cons]
    by_cases h : p.1 ∈ s ∨ p.2.exclusive = true
    · rw [findBestGo_cons_skip r s best p t h] at hgo
      obtain ⟨h1, h2, h3⟩ := ih best c hgo
      rw [if_pos h]
      exact ⟨by simpa using h1, h2, by simpa using h3⟩
    · rw [if_neg h]
      cases hp : PrepareLoadModel p.2 r with
      | none =>
        rw [findBestGo_cons_infeasible r s best p t h hp] at hgo
        obtain ⟨h1, h2, h3⟩ := ih best c hgo
        simp only [hp]
        exact ⟨by simpa using h1, h2, by simpa using h3⟩
      | some sc =>
        simp only [hp]
        cases best with
        | none =>
          rw [findBestGo_cons_first r s sc p t h hp] at hgo
          obtain ⟨h1, h2, h3⟩ := ih (some (p.1, sc)) c hgo
          have hpc : BetterCandidate c (p.1, sc) ∨ c = (p.1, sc) := h2 (p.1, sc) rfl
          refine ⟨?_, ?_, ?_⟩
          · rcases h1 with h1 | h1
            · injection h1 with h1a
              exact Or.inr (by simp [← h1a])
            · exact Or.inr (by simp [h1])
          · intro b hb
            exact absurd hb (by simp)
          · intro d hd
            simp only [List.cons_append, List.nil_append, List.mem_cons] at hd
            rcases hd with hd | hd
            · rw [hd]
              exact hpc
            · exact h3 d hd
        | some b0 =>
          by_cases hb : BetterCandidate (p.1, sc) b0
          · rw [findBestGo_cons_better r s sc b0 p t h hp hb] at hgo
            obtain ⟨h1, h2, h3⟩ := ih (some (p.1, sc)) c hgo
            have hpc : BetterCandidate c (p.1, sc) ∨ c = (p.1, sc) := h2 (p.1, sc) rfl
            refine ⟨?_, ?_, ?_⟩
            · rcases h1 with h1 | h1
              · injection h1 with h1a
                exact Or.inr (by simp [← h1a])
              · exact Or.inr (by simp [h1])
            · intro b hbb
              injection hbb with hbb
              subst hbb
              rcases hpc with hpc | hpc
              · exact Or.inl (betterCandidate_trans c (p.1, sc) b0 hpc hb)
              · exact Or.inl (hpc ▸ hb)
            · intro d hd
              simp only [List.cons_append, List.nil_append, List.mem_cons] at hd
              rcases hd with hd | hd
              · rw [hd]
                exact hpc
              · exact h3 d hd
          · rw [findBestGo_cons_keep r s sc b0 p t h hp hb] at hgo
            obtain ⟨h1, h2, h3⟩ := ih (some b0) c hgo
            have hcb0 : BetterCandidate c b0 ∨ c = b0 := h2 b0 rfl
            have hb0p : BetterCandidate b0 (p.1, sc) ∨ b0 = (p.1, sc) := by
              rcases betterCandidate_total (p.1, sc) b0 with hx | hx | hx
              · exact absurd hx hb
              · exact Or.inl hx
              · exact Or.inr hx.symm
            refine ⟨?_, ?_, ?_⟩
            · rcases h1 with h1 | h1
              · exact Or.inl h1
              · exact Or.inr (by simp [h1])
            · intro b hbb
              injection hbb with hbb
              subst hbb
              exact hcb0
            · intro d hd
              simp only [List.cons_append, List.nil_append, List.mem_cons] at hd
              rcases hd with hd | hd
              · rw [hd]
                rcases hcb0 with hc | hc
                · rcases hb0p with hx | hx
                  · exact Or.inl (betterCandidate_trans c b0 (p.1, sc) hc hx)
                  · exact Or.inl (hx ▸ hc)
                · rw [hc]
                  exact hb0p
              · exact h3 d hd

theorem mem_candidateScores (r : ℚ) (s : List ℕ) (backs : List (ℕ × BackendDelegate))
    (c : ℕ × ℚ) :
    c ∈ CandidateScores r s backs ↔
      ∃ b, (c.1, b) ∈ backs ∧ c.1 ∉ s ∧ b.exclusive = false ∧
        PrepareLoadModel b r = some c.2 := by
  unfold CandidateScores
  rw [List.mem_filterMap]
  constructor
  · rintro ⟨p, hp, hf⟩
    by_cases h : p.1 ∈ s ∨ p.2.exclusive = true
    · simp [h] at hf
    · cases hq : PrepareLoadModel p.2 r with
      | none => simp [h, hq] at hf
      | some sc =>
        rw [if_neg h, hq] at hf
        simp at hf
        push_neg at h
        rw [← hf]
        refine ⟨p.2, ?_, h.1, ?_, ?_⟩
        · simpa using hp
        · simpa using h.2
        · simpa using hq
  · rintro ⟨b, hb, hs, hx, hq⟩
    refine ⟨(c.1, b), hb, ?_⟩
    have h : ¬ ((c.1, b).1 ∈ s ∨ (c.1, b).2.exclusive = true) := by simp [hs, hx]
    rw [if_neg h]
    simp [hq]

/-- C2: for every request rate and skip set, `FindBestBackend` considers only
backends that are not in the skip set and not exclusive, accepts only
candidates for which `PrepareLoadModel` is feasible, returns the feasible
candidate with the smallest remaining-capacity fraction after the hypothetical
load, breaks ties by the lower node id, and returns none when no candidate is
feasible. -/
theorem findBestBackend_eq_none_iff (r : ℚ) (s : List ℕ)
    (backs : List (ℕ × BackendDelegate)) :
    FindBestBackend r s backs = none ↔
      ∀ p ∈ backs, p.1 ∈ s ∨ p.2.exclusive = true ∨
        PrepareLoadModel p.2 r = none := by
  unfold FindBestBackend
  rw [findBestGo_eq_none]
  simp only [true_and]
  unfold CandidateScores
  rw [List.filterMap_eq_nil_iff]
  constructor
  · intro hall p hp
    have := hall p hp
    by_cases h : p.1 ∈ s ∨ p.2.exclusive = true
    · rcases h with h | h
      · exact Or.inl h
      · exact Or.inr (Or.inl h)
    · rw [if_neg h] at this
      cases hq : PrepareLoadModel p.2 r with
      | none => exact Or.inr (Or.inr rfl)
      | some sc => rw [hq] at this; simp at this
  · intro hall p hp
    rcases hall p hp with h | h | h
    · simp [h]
    · simp [h]
    · by_cases h2 : p.1 ∈ s ∨ p.2.exclusive = true
      · simp [h2]
      · simp [h2, h]

/-- **C2.** `FindBestBackend` considers only backends not in the skip set and
not exclusive, accepts only candidates for which `PrepareLoadModel` is
feasible, returns a feasible candidate whose remaining-capacity fraction after
the hypothetical load is smallest (ties broken by the lower node id), and
returns `none` exactly when no candidate is feasible. -/
theorem FindBestBackend_spec (r : ℚ) (s : List ℕ)
    (backs : List (ℕ × BackendDelegate)) (hnd : (keysOf backs).Nodup) :
    (FindBestBackend r s backs = none ↔
      ∀ p ∈ backs, p.1 ∈ s ∨ p.2.exclusive = true ∨ PrepareLoadModel p.2 r = none) ∧
    (∀ bid sc, FindBestBackend r s backs = some (bid, sc) →
      ∃ b, alookup bid backs = some b ∧ bid ∉ s ∧ b.exclusive = false ∧
        PrepareLoadModel b r = some sc ∧
        ∀ id2 b2 sc2, (id2, b2) ∈ backs → id2 ∉ s → b2.exclusive = false →
          PrepareLoadModel b2 r = some sc2 →
          sc < sc2 ∨ (sc = sc2 ∧ bid ≤ id2)) := by
  constructor
  · exact findBestBackend_eq_none_iff r s backs
  · intro bid sc hfind
    unfold FindBestBackend at hfind
    obtain ⟨h1, _, h3⟩ := findBestGo_some_spec r s backs none (bid, sc) hfind
    have hc : (bid, sc) ∈ CandidateScores r s backs := by
      rcases h1 with h1 | h1
      · exact absurd h1 (by simp)
      · exact h1
    obtain ⟨b, hb, hs, hx, hq⟩ := (mem_candidateScores r s backs (bid, sc)).1 hc
    refine ⟨b, mem_alookup bid b backs hnd hb, hs, hx, hq, ?_⟩
    intro id2 b2 sc2 hmem hs2 hx2 hq2
    have hd : (id2, sc2) ∈ CandidateScores r s backs :=
      (mem_candidateScores r s backs (id2, sc2)).2 ⟨b2, hmem, hs2, hx2, hq2⟩
    rcases h3 (id2, sc2) hd with hbet | heq
    · rcases hbet with hbet | ⟨hbe, hbl⟩
      · exact Or.inl hbet
      · exact Or.inr ⟨hbe, le_of_lt hbl⟩
    · have h1e : bid = id2 := congrArg Prod.fst heq
      have h2e : sc = sc2 := congrArg Prod.snd heq
      exact Or.inr ⟨h2e, le_of_eq h1e⟩

/-- C8: for every `ModelInfo` value, `total_throughput()` returns exactly the
sum of the values of its `backend_throughputs` map. -/
theorem C8_total_throughput_eq_sum (m : ModelInfo) :
    m.total_throughput = sumVals m.backend_throughputs := by
  unfold ModelInfo.total_throughput
  simpa using foldl_add_sumVals m.backend_throughputs 0

/-- C10: for every node id with no corresponding record, `GetBackend` and
`GetFrontend` return `none` (the embedding of returning nullptr) rather than
failing or creating a record; both are pure lookups of the tables, so neither
modifies the `backends` or `frontends` table. -/
theorem C10_get_unknown_node (st : SchedulerState) (node_id : ℕ)
    (hb : node_id ∉ keysOf st.backends) (hf : node_id ∉ keysOf st.frontends) :
    GetBackend st node_id = none ∧ GetFrontend st node_id = none :=
  ⟨(alookup_eq_none_iff node_id st.backends).2 hb,
   (alookup_eq_none_iff node_id st.frontends).2 hf⟩

theorem C10_get_unknown_node_witness :
    (7 ∉ keysOf sampleState.backends ∧ 7 ∉ keysOf sampleState.frontends) ∧
    (GetBackend sampleState 7 = none ∧ GetFrontend sampleState 7 = none) :=
  ⟨by decide, C10_get_unknown_node sampleState 7 (by decide) (by decide)⟩

/-- C6: each client RPC (`Unregister`, `LoadModel`, `UpdateBackendStats`,
`KeepAlive`) invoked with a node id that is not registered replies
`UNKNOWN_NODE` and modifies none of `frontends`, `backends`, `model_table`,
`unassigned_workloads` (the whole state is returned unchanged). -/
theorem C6_unknown_node_no_state_change (st : SchedulerState) (node_id : ℕ)
    (m : String) (r : ℚ) (samples : List (String × ℚ)) (now : ℚ)
    (hf : node_id ∉ keysOf st.frontends) (hb : node_id ∉ keysOf st.backends) :
    Unregister st node_id = (CtrlStatus.unknownNode, st) ∧
    LoadModel st node_id m r = (CtrlStatus.unknownNode, st) ∧
    UpdateBackendStats st node_id samples = (CtrlStatus.unknownNode, st) ∧
    KeepAlive st node_id now = (CtrlStatus.unknownNode, st) := by
  have h1 : alookup node_id st.frontends = none :=
    (alookup_eq_none_iff node_id st.frontends).2 hf
  have h2 : alookup node_id st.backends = none :=
    (alookup_eq_none_iff node_id st.backends).2 hb
  refine ⟨?_, ?_, ?_, ?_⟩
  · unfold Unregister
    rw [h1, h2]
    simp
  · unfold LoadModel GetFrontend
    rw [h1]
  · unfold UpdateBackendStats GetBackend
    rw [h2]
  · unfold KeepAlive
    rw [h1, h2]
    simp

theorem C6_unknown_node_no_state_change_witness :
    (7 ∉ keysOf sampleState.frontends ∧ 7 ∉ keysOf sampleState.backends) ∧
    (Unregister sampleState 7 = (CtrlStatus.unknownNode, sampleState) ∧
     LoadModel sampleState 7 sessA 20 = (CtrlStatus.unknownNode, sampleState) ∧
     UpdateBackendStats sampleState 7 [(sessA, 5)] =
       (CtrlStatus.unknownNode, sampleState) ∧
     KeepAlive sampleState 7 9 = (CtrlStatus.unknownNode, sampleState)) :=
  ⟨by decide,
   C6_unknown_node_no_state_change sampleState 7 sessA 20 [(sessA, 5)] 9
     (by decide) (by decide)⟩

theorem mem_keysOf_iff (k : κ) (l : List (κ × α)) :
    k ∈ keysOf l ↔ ¬ (alookup k l = none) := by
  rw [alookup_eq_none_iff]
  tauto

theorem mem_keysOf_eraseKey_iff (k x : κ) (l : List (κ × α)) :
    x ∈ keysOf (eraseKey k l) ↔ (x ∈ keysOf l ∧ x ≠ k) := by
  simp only [keysOf, eraseKey, List.mem_map]
  constructor
  · rintro ⟨p, hp, rfl⟩
    have h1 := List.mem_of_mem_filter hp
    have h2 : p.1 ≠ k := by simpa using List.of_mem_filter hp
    exact ⟨⟨p, h1, rfl⟩, h2⟩
  · rintro ⟨⟨p, hp, rfl⟩, hx⟩
    exact ⟨p, List.mem_filter.2 ⟨hp, by simpa using hx⟩, rfl⟩

theorem keysOf_map_withKey (g : κ × α → α) (l : List (κ × α)) :
    keysOf (l.map (fun p => (p.1, g p))) = keysOf l := by
  unfold keysOf
  rw [List.map_map]
  rfl

theorem frontends_LoadModelOn (st : SchedulerState) (m : String) (bid : ℕ)
    (r : ℚ) : (LoadModelOn st m bid r).frontends = st.frontends := rfl

theorem frontends_ReassignStep (bid : ℕ) (s : SchedulerState) (e : String × ℚ) :
    (ReassignStep bid s e).frontends = s.frontends := by
  unfold ReassignStep
  cases h : FindBestBackend e.2 [bid] s.backends with
  | none => rfl
  | some p =>
    obtain ⟨a, c⟩ := p
    rfl

theorem frontends_foldl_ReassignStep (bid : ℕ) (l : List (String × ℚ)) :
    ∀ s, (l.foldl (ReassignStep bid) s).frontends = s.frontends := by
  induction l with
  | nil => intro s; rfl
  | cons e t ih =>
    intro s
    rw [List.foldl_cons, ih, frontends_ReassignStep]

theorem frontends_RemoveBackend (st : SchedulerState) (bid : ℕ) :
    (RemoveBackend st bid).frontends = st.frontends := by
  unfold RemoveBackend
  cases h : GetBackend st bid with
  | none => rfl
  | some b => exact frontends_foldl_ReassignStep bid b.instances _

theorem frontends_foldl_RemoveBackend (ids : List ℕ) :
    ∀ s : SchedulerState, (ids.foldl RemoveBackend s).frontends = s.frontends := by
  induction ids with
  | nil => intro s; rfl
  | cons j t ih =>
    intro s
    rw [List.foldl_cons, ih, frontends_RemoveBackend]

theorem backends_keysOf_LoadModelOn (st : SchedulerState) (m : String)
    (bid : ℕ) (r : ℚ) :
    keysOf (LoadModelOn st m bid r).backends = keysOf st.backends := by
  simp [LoadModelOn]

theorem backends_keysOf_ReassignStep (bid : ℕ) (s : SchedulerState)
    (e : String × ℚ) :
    keysOf (ReassignStep bid s e).backends = keysOf s.backends := by
  unfold ReassignStep
  cases h : FindBestBackend e.2 [bid] s.backends with
  | none => rfl
  | some p =>
    obtain ⟨a, c⟩ := p
    simp [LoadModelOn]

theorem backends_keysOf_foldl_ReassignStep (bid : ℕ) (l : List (String × ℚ)) :
    ∀ s, keysOf ((l.foldl (ReassignStep bid) s)).backends = keysOf s.backends := by
  induction l with
  | nil => intro s; rfl
  | cons e t ih =>
    intro s
    rw [List.foldl_cons, ih, backends_keysOf_ReassignStep]

theorem RemoveBackend_of_getBackend_none (st : SchedulerState) (bid : ℕ)
    (h : GetBackend st bid = none) : RemoveBackend st bid = st := by
  unfold RemoveBackend
  rw [h]

theorem backends_keysOf_RemoveBackend (st : SchedulerState) (bid : ℕ)
    (b : BackendDelegate) (h : GetBackend st bid = some b) :
    keysOf (RemoveBackend st bid).backends = keysOf (eraseKey bid st.backends) := by
  unfold RemoveBackend
  rw [h]
  exact backends_keysOf_foldl_ReassignStep bid b.instances _

theorem removeBackend_backends_alookup_none_iff (st : SchedulerState)
    (bid id : ℕ) :
    alookup id (RemoveBackend st bid).backends = none ↔
      (id = bid ∨ alookup id st.backends = none) := by
  cases h : GetBackend st bid with
  | none =>
    rw [RemoveBackend_of_getBackend_none st bid h]
    unfold GetBackend at h
    constructor
    · exact fun h2 => Or.inr h2
    · rintro (rfl | h2)
      · exact h
      · exact h2
  | some b =>
    rw [alookup_eq_none_iff, backends_keysOf_RemoveBackend st bid b h,
      mem_keysOf_eraseKey_iff, alookup_eq_none_iff]
    tauto

theorem backends_keysOf_DeleteSession (st : SchedulerState) (m : String) :
    keysOf (DeleteSession st m).backends = keysOf st.backends := by
  unfold DeleteSession
  exact keysOf_map_withKey _ st.backends

theorem frontends_DeleteSession (st : SchedulerState) (m : String) :
    (DeleteSession st m).frontends = st.frontends := rfl

theorem backends_keysOf_DropSubscriber (st : SchedulerState) (m : String)
    (fid : ℕ) : keysOf (DropSubscriber st m fid).backends = keysOf st.backends := by
  cases h : alookup m st.model_table with
  | none =>
    unfold DropSubscriber
    rw [h]
  | some info =>
    simp only [DropSubscriber, h]
    by_cases hc : info.subscribers.filter (fun x => x ≠ fid) = [] ∧
        StaticBacked st m = false
    · rw [if_pos hc]
      exact backends_keysOf_DeleteSession st m
    · rw [if_neg hc]

theorem frontends_DropSubscriber (st : SchedulerState) (m : String) (fid : ℕ) :
    (DropSubscriber st m fid).frontends = st.frontends := by
  cases h : alookup m st.model_table with
  | none =>
    unfold DropSubscriber
    rw [h]
  | some info =>
    simp only [DropSubscriber, h]
    by_cases hc : info.subscribers.filter (fun x => x ≠ fid) = [] ∧
        StaticBacked st m = false
    · rw [if_pos hc]
      rfl
    · rw [if_neg hc]

theorem backends_keysOf_foldl_DropSubscriber (fid : ℕ) (l : List String) :
    ∀ s : SchedulerState,
      keysOf ((l.foldl (fun s m => DropSubscriber s m fid) s)).backends =
        keysOf s.backends := by
  induction l with
  | nil => intro s; rfl
  | cons m t ih =>
    intro s
    rw [List.foldl_cons, ih, backends_keysOf_DropSubscriber]

theorem frontends_foldl_DropSubscriber (fid : ℕ) (l : List String) :
    ∀ s : SchedulerState,
      ((l.foldl (fun s m => DropSubscriber s m fid) s)).frontends =
        s.frontends := by
  induction l with
  | nil => intro s; rfl
  | cons m t ih =>
    intro s
    rw [List.foldl_cons, ih, frontends_DropSubscriber]

theorem RemoveFrontend_of_getFrontend_none (st : SchedulerState) (fid : ℕ)
    (h : GetFrontend st fid = none) : RemoveFrontend st fid = st := by
  unfold RemoveFrontend
  rw [h]

theorem backends_keysOf_RemoveFrontend (st : SchedulerState) (fid : ℕ) :
    keysOf (RemoveFrontend st fid).backends = keysOf st.backends := by
  unfold RemoveFrontend
  cases h : GetFrontend st fid with
  | none => rfl
  | some fr => exact backends_keysOf_foldl_DropSubscriber fid fr.subscriptions _

theorem backends_keysOf_foldl_RemoveFrontend (ids : List ℕ) :
    ∀ s : SchedulerState,
      keysOf ((ids.foldl RemoveFrontend s)).backends = keysOf s.backends := by
  induction ids with
  | nil => intro s; rfl
  | cons j t ih =>
    intro s
    rw [List.foldl_cons, ih, backends_keysOf_RemoveFrontend]

theorem frontends_keysOf_RemoveFrontend (st : SchedulerState) (fid : ℕ)
    (fr : FrontendDelegate) (h : GetFrontend st fid = some fr) :
    keysOf (RemoveFrontend st fid).frontends =
      keysOf (eraseKey fid st.frontends) := by
  unfold RemoveFrontend
  rw [h]
  rw [frontends_foldl_DropSubscriber]

theorem removeFrontend_frontends_alookup_none_iff (st : SchedulerState)
    (fid id : ℕ) :
    alookup id (RemoveFrontend st fid).frontends = none ↔
      (id = fid ∨ alookup id st.frontends = none) := by
  cases h : GetFrontend st fid with
  | none =>
    rw [RemoveFrontend_of_getFrontend_none st fid h]
    unfold GetFrontend at h
    constructor
    · exact fun h2 => Or.inr h2
    · rintro (rfl | h2)
      · exact h
      · exact h2
  | some fr =>
    rw [alookup_eq_none_iff, frontends_keysOf_RemoveFrontend st fid fr h,
      mem_keysOf_eraseKey_iff, alookup_eq_none_iff]
    tauto

theorem foldl_RemoveBackend_alookup_none_iff (ids : List ℕ) :
    ∀ (st : SchedulerState) (id : ℕ),
      alookup id (ids.foldl RemoveBackend st).backends = none ↔
        (id ∈ ids ∨ alookup id st.backends = none) := by
  induction ids with
  | nil => intro st id; simp
  | cons j t ih =>
    intro st id
    rw [List.foldl_cons, ih, removeBackend_backends_alookup_none_iff]
    simp only [List.mem_cons]
    tauto

theorem foldl_RemoveFrontend_alookup_none_iff (ids : List ℕ) :
    ∀ (st : SchedulerState) (id : ℕ),
      alookup id (ids.foldl RemoveFrontend st).frontends = none ↔
        (id ∈ ids ∨ alookup id st.frontends = none) := by
  induction ids with
  | nil => intro st id; simp
  | cons j t ih =>
    intro st id
    rw [List.foldl_cons, ih, removeFrontend_frontends_alookup_none_iff]
    simp only [List.mem_cons]
    tauto

theorem deadBackends_nodup (st : SchedulerState) (now : ℚ)
    (hnd : (keysOf st.backends).Nodup) : (DeadBackends st now).Nodup := by
  unfold DeadBackends
  simp only [keysOf] at hnd
  exact List.Nodup.sublist
    ((List.filter_sublist st.backends).map (fun p => p.1)) hnd

theorem deadFrontends_nodup (st : SchedulerState) (now : ℚ)
    (hnd : (keysOf st.frontends).Nodup) : (DeadFrontends st now).Nodup := by
  unfold DeadFrontends
  simp only [keysOf] at hnd
  exact List.Nodup.sublist
    ((List.filter_sublist st.frontends).map (fun p => p.1)) hnd

theorem mem_deadBackends (st : SchedulerState) (now : ℚ) (id : ℕ)
    (hnd : (keysOf st.backends).Nodup) :
    id ∈ DeadBackends st now ↔
      ∃ b, alookup id st.backends = some b ∧
        now - b.last_beacon > BeaconTimeout st.beacon_interval_sec := by
  unfold DeadBackends
  simp only [List.mem_map, List.mem_filter]
  constructor
  · rintro ⟨p, ⟨hp, hq⟩, rfl⟩
    exact ⟨p.2, mem_alookup p.1 p.2 st.backends hnd (by simpa using hp),
      by simpa using hq⟩
  · rintro ⟨b, hb, hq⟩
    exact ⟨(id, b), ⟨alookup_mem id b st.backends hb, by simpa using hq⟩, rfl⟩

theorem mem_deadFrontends (st : SchedulerState) (now : ℚ) (id : ℕ)
    (hnd : (keysOf st.frontends).Nodup) :
    id ∈ DeadFrontends st now ↔
      ∃ f, alookup id st.frontends = some f ∧
        now - f.last_beacon > BeaconTimeout st.beacon_interval_sec := by
  unfold DeadFrontends
  simp only [List.mem_map, List.mem_filter]
  constructor
  · rintro ⟨p, ⟨hp, hq⟩, rfl⟩
    exact ⟨p.2, mem_alookup p.1 p.2 st.frontends hnd (by simpa using hp),
      by simpa using hq⟩
  · rintro ⟨f, hf, hq⟩
    exact ⟨(id, f), ⟨alookup_mem id f st.frontends hf, by simpa using hq⟩, rfl⟩

theorem foldl_unregister_eq_foldl_RemoveBackend (ids : List ℕ) :
    ∀ st : SchedulerState, ids.Nodup →
      (∀ j ∈ ids, j ∈ keysOf st.backends) →
      (∀ j ∈ ids, j ∉ keysOf st.frontends) →
      ids.foldl (fun s j => (Unregister s j).2) st = ids.foldl RemoveBackend st := by
  induction ids with
  | nil => intro st _ _ _; rfl
  | cons j t ih =>
    intro st hnd hin hout
    have hjb : (alookup j st.backends).isSome :=
      (alookup_isSome_iff j st.backends).2 (hin j (List.mem_cons_self j t))
    have hjf : alookup j st.frontends = none :=
      (alookup_eq_none_iff j st.frontends).2 (hout j (List.mem_cons_self j t))
    have hstep : (Unregister st j).2 = RemoveBackend st j := by
      unfold Unregister
      rw [hjf]
      simp [hjb]
    rw [List.foldl_cons, List.foldl_cons, hstep]
    refine ih (RemoveBackend st j) (List.nodup_cons.1 hnd).2 ?_ ?_
    · intro x hx
      have hxb : x ∈ keysOf st.backends := hin x (List.mem_cons_of_mem j hx)
      have hxj : x ≠ j := fun he => (List.nodup_cons.1 hnd).1 (he ▸ hx)
      rw [mem_keysOf_iff, removeBackend_backends_alookup_none_iff]
      push_neg
      exact ⟨hxj, (mem_keysOf_iff x st.backends).1 hxb⟩
    · intro x hx
      rw [show (RemoveBackend st j).frontends = st.frontends from
        frontends_RemoveBackend st j]
      exact hout x (List.mem_cons_of_mem j hx)

theorem foldl_unregister_eq_foldl_RemoveFrontend (ids : List ℕ) :
    ∀ st : SchedulerState, ids.Nodup →
      (∀ j ∈ ids, j ∈ keysOf st.frontends) →
      ids.foldl (fun s j => (Unregister s j).2) st = ids.foldl RemoveFrontend st := by
  induction ids with
  | nil => intro st _ _; rfl
  | cons j t ih =>
    intro st hnd hin
    have hjf : (alookup j st.frontends).isSome :=
      (alookup_isSome_iff j st.frontends).2 (hin j (List.mem_cons_self j t))
    have hstep : (Unregister st j).2 = RemoveFrontend st j := by
      unfold Unregister
      simp [hjf]
    rw [List.foldl_cons, List.foldl_cons, hstep]
    refine ih (RemoveFrontend st j) (List.nodup_cons.1 hnd).2 ?_
    intro x hx
    have hxf : x ∈ keysOf st.frontends := hin x (List.mem_cons_of_mem j hx)
    have hxj : x ≠ j := fun he => (List.nodup_cons.1 hnd).1 (he ▸ hx)
    rw [mem_keysOf_iff, removeFrontend_frontends_alookup_none_iff]
    push_neg
    exact ⟨hxj, (mem_keysOf_iff x st.frontends).1 hxf⟩

theorem beaconTimeout_eq (interval : ℕ) :
    BeaconTimeout interval = 3 / 2 * (interval : ℚ) := by
  unfold BeaconTimeout
  ring

/-- C7: in every `BeaconCheck` pass a backend is removed iff
`now − last_beacon` exceeds `1.5 × beacon_interval_sec`, likewise for
frontends; and the whole pass equals folding the `Unregister` cleanup path
over the expired node ids (the same path as a voluntary unregister). -/
theorem BeaconCheck_spec (st : SchedulerState) (now : ℚ)
    (hndB : (keysOf st.backends).Nodup) (hndF : (keysOf st.frontends).Nodup)
    (hdisj : ∀ id ∈ keysOf st.backends, id ∉ keysOf st.frontends) :
    (∀ id b, alookup id st.backends = some b →
      (alookup id (BeaconCheck st now).backends = none ↔
        now - b.last_beacon > 3 / 2 * (st.beacon_interval_sec : ℚ))) ∧
    (∀ id f, alookup id st.frontends = some f →
      (alookup id (BeaconCheck st now).frontends = none ↔
        now - f.last_beacon > 3 / 2 * (st.beacon_interval_sec : ℚ))) ∧
    BeaconCheck st now =
      (DeadFrontends st now).foldl (fun s j => (Unregister s j).2)
        ((DeadBackends st now).foldl (fun s j => (Unregister s j).2) st) := by
  have hBsub : ∀ j ∈ DeadBackends st now, j ∈ keysOf st.backends := by
    intro j hj
    obtain ⟨b, hb, _⟩ := (mem_deadBackends st now j hndB).1 hj
    rw [mem_keysOf_iff]
    intro hno
    rw [hb] at hno
    cases hno
  have hFsub : ∀ j ∈ DeadFrontends st now, j ∈ keysOf st.frontends := by
    intro j hj
    obtain ⟨f, hf, _⟩ := (mem_deadFrontends st now j hndF).1 hj
    rw [mem_keysOf_iff]
    intro hno
    rw [hf] at hno
    cases hno
  have hfrontEq :
      ((DeadBackends st now).foldl RemoveBackend st).frontends = st.frontends :=
    frontends_foldl_RemoveBackend (DeadBackends st now) st
  refine ⟨?_, ?_, ?_⟩
  · intro id b hb
    unfold BeaconCheck
    have hkeys :
        keysOf ((DeadFrontends st now).foldl RemoveFrontend
          ((DeadBackends st now).foldl RemoveBackend st)).backends =
        keysOf ((DeadBackends st now).foldl RemoveBackend st).backends :=
      backends_keysOf_foldl_RemoveFrontend (DeadFrontends st now) _
    rw [alookup_eq_none_iff, hkeys, ← alookup_eq_none_iff,
      foldl_RemoveBackend_alookup_none_iff]
    rw [mem_deadBackends st now id hndB]
    constructor
    · rintro (⟨b2, hb2, hq⟩ | hnone)
      · rw [hb] at hb2
        injection hb2 with hb2
        rw [← beaconTimeout_eq]
        exact hb2 ▸ hq
      · rw [hb] at hnone
        cases hnone
    · intro hq
      exact Or.inl ⟨b, hb, by rw [beaconTimeout_eq]; exact hq⟩
  · intro id f hf
    unfold BeaconCheck
    rw [foldl_RemoveFrontend_alookup_none_iff, hfrontEq]
    rw [mem_deadFrontends st now id hndF]
    constructor
    · rintro (⟨f2, hf2, hq⟩ | hnone)
      · rw [hf] at hf2
        injection hf2 with hf2
        rw [← beaconTimeout_eq]
        exact hf2 ▸ hq
      · rw [hf] at hnone
        cases hnone
    · intro hq
      exact Or.inl ⟨f, hf, by rw [beaconTimeout_eq]; exact hq⟩
  · unfold BeaconCheck
    rw [foldl_unregister_eq_foldl_RemoveBackend (DeadBackends st now) st
      (deadBackends_nodup st now hndB) hBsub
      (fun j hj => hdisj j (hBsub j hj))]
    rw [foldl_unregister_eq_foldl_RemoveFrontend (DeadFrontends st now) _
      (deadFrontends_nodup st now hndF) ?_]
    intro j hj
    rw [show ((DeadBackends st now).foldl RemoveBackend st).frontends =
      st.frontends from hfrontEq] at *
    rw [mem_keysOf_iff]
    rw [hfrontEq]
    exact (mem_keysOf_iff j st.frontends).1 (hFsub j hj)

theorem BeaconCheck_spec_witness :
    ((keysOf sampleState.backends).Nodup ∧
     (keysOf sampleState.frontends).Nodup ∧
     (∀ id ∈ keysOf sampleState.backends, id ∉ keysOf sampleState.frontends)) ∧
    ((∀ id b, alookup id sampleState.backends = some b →
      (alookup id (BeaconCheck sampleState 10).backends = none ↔
        10 - b.last_beacon > 3 / 2 * (sampleState.beacon_interval_sec : ℚ))) ∧
     (∀ id f, alookup id sampleState.frontends = some f →
      (alookup id (BeaconCheck sampleState 10).frontends = none ↔
        10 - f.last_beacon > 3 / 2 * (sampleState.beacon_interval_sec : ℚ))) ∧
     BeaconCheck sampleState 10 =
       (DeadFrontends sampleState 10).foldl (fun s j => (Unregister s j).2)
         ((DeadBackends sampleState 10).foldl
           (fun s j => (Unregister s j).2) sampleState)) :=
  ⟨⟨by decide, by decide, by decide⟩,
   BeaconCheck_spec sampleState 10 (by decide) (by decide) (by decide)⟩

theorem maxRList_cons (h x : ℚ) (t : List ℚ) :
    maxRList h (x :: t) = maxRList (max h x) t := rfl

theorem maxRList_mem (t : List ℚ) : ∀ h : ℚ, maxRList h t ∈ h :: t := by
  induction t with
  | nil => intro h; simp [maxRList]
  | cons x t ih =>
    intro h
    rw [maxRList_cons]
    rcases List.mem_cons.1 (ih (max h x)) with he | hm
    · rw [he]
      rcases max_choice h x with hc | hc
      · rw [hc]
        exact List.mem_cons_self h (x :: t)
      · rw [hc]
        exact List.mem_cons_of_mem h (List.mem_cons_self x t)
    · exact List.mem_cons_of_mem h (List.mem_cons_of_mem x hm)

theorem le_maxRList (t : List ℚ) : ∀ h : ℚ, ∀ x ∈ h :: t, x ≤ maxRList h t := by
  induction t with
  | nil =>
    intro h x hx
    rcases List.mem_cons.1 hx with he | hm
    · exact he ▸ le_refl h
    · simp at hm
  | cons y t ih =>
    intro h x hx
    rw [maxRList_cons]
    rcases List.mem_cons.1 hx with he | hm
    · subst he
      exact le_trans (le_max_left x y)
        (ih (max x y) (max x y) (List.mem_cons_self _ t))
    · rcases List.mem_cons.1 hm with he | hm2
      · subst he
        exact le_trans (le_max_right h x)
          (ih (max h x) (max h x) (List.mem_cons_self _ t))
      · exact ih (max h y) x (List.mem_cons_of_mem _ hm2)

theorem shrinkGo_model_table_other (m : String) (target : ℚ) :
    ∀ (fuel : ℕ) (st : SchedulerState) (m2 : String), m2 ≠ m →
      alookup m2 (ShrinkGo m target st fuel).model_table =
        alookup m2 st.model_table := by
  intro fuel
  induction fuel with
  | zero => intro st m2 h; rfl
  | succ n ih =>
    intro st m2 h
    cases hl : alookup m st.model_table with
    | none => simp only [ShrinkGo, hl]
    | some info =>
      simp only [ShrinkGo, hl]
      split
      · rfl
      · split
        · rfl
        · split
          · rw [ih _ m2 h]
            unfold UnloadModelFrom
            dsimp only
            exact alookup_mapVal_ne m m2 _ st.model_table h
          · unfold SetReservation
            dsimp only
            exact alookup_mapVal_ne m m2 _ st.model_table h

theorem shrinkGo_unassigned (m : String) (target : ℚ) :
    ∀ (fuel : ℕ) (st : SchedulerState),
      (ShrinkGo m target st fuel).unassigned_workloads =
        st.unassigned_workloads := by
  intro fuel
  induction fuel with
  | zero => intro st; rfl
  | succ n ih =>
    intro st
    cases hl : alookup m st.model_table with
    | none => simp only [ShrinkGo, hl]
    | some info =>
      simp only [ShrinkGo, hl]
      split
      · rfl
      · split
        · rfl
        · split
          · rw [ih]
            rfl
          · rfl

theorem epochSessionStep_model_table_other (st : SchedulerState)
    (m m2 : String) (hne : m2 ≠ m) :
    alookup m2 (EpochSessionStep st m).model_table =
      alookup m2 st.model_table := by
  cases hl : alookup m st.model_table with
  | none => simp only [EpochSessionStep, hl]
  | some info =>
    simp only [EpochSessionStep, hl]
    split
    · rfl
    · split
      · split
        · split
          · unfold DeleteSession
            dsimp only
            rw [alookup_eraseKey_ne m m2 _ hne]
            exact shrinkGo_model_table_other m _ _ st m2 hne
          · exact shrinkGo_model_table_other m _ _ st m2 hne
        · exact shrinkGo_model_table_other m _ _ st m2 hne
      · rfl

theorem unassigned_DeleteSession (s : SchedulerState) (m : String) :
    (DeleteSession s m).unassigned_workloads = s.unassigned_workloads := rfl

theorem epochSessionStep_unassigned_mem (st : SchedulerState) (m : String)
    (e : String × ℚ) (he : e ∈ st.unassigned_workloads) :
    e ∈ (EpochSessionStep st m).unassigned_workloads := by
  cases hl : alookup m st.model_table with
  | none => simpa only [EpochSessionStep, hl] using he
  | some info =>
    simp only [EpochSessionStep, hl]
    split
    · exact List.mem_append_left _ he
    · split
      · split
        · split
          · rw [unassigned_DeleteSession, shrinkGo_unassigned]
            exact he
          · rw [shrinkGo_unassigned]
            exact he
        · rw [shrinkGo_unassigned]
          exact he
      · exact he

theorem epochSessionStep_grow (st : SchedulerState) (m : String)
    (info : ModelInfo) (h : alookup m st.model_table = some info)
    (hg : MeasuredRps info > info.total_throughput * (1 + over_provision_slack)) :
    EpochSessionStep st m =
      { st with unassigned_workloads := st.unassigned_workloads ++
          [(m, MeasuredRps info - info.total_throughput)] } := by
  simp only [EpochSessionStep, h]
  rw [if_pos hg]

theorem epochFold_unassigned_mem (l : List String) :
    ∀ (st : SchedulerState) (e : String × ℚ), e ∈ st.unassigned_workloads →
      e ∈ (l.foldl EpochSessionStep st).unassigned_workloads := by
  induction l with
  | nil => intro st e he; exact he
  | cons a t ih =>
    intro st e he
    rw [List.foldl_cons]
    exact ih _ e (epochSessionStep_unassigned_mem st a e he)

theorem epochFold_grow_mem (l : List String) :
    ∀ (st : SchedulerState) (m : String) (info : ModelInfo), m ∈ l →
      alookup m st.model_table = some info →
      MeasuredRps info > info.total_throughput * (1 + over_provision_slack) →
      (m, MeasuredRps info - info.total_throughput) ∈
        (l.foldl EpochSessionStep st).unassigned_workloads := by
  induction l with
  | nil =>
    intro st m info hm
    simp at hm
  | cons a t ih =>
    intro st m info hm hl hg
    rw [List.foldl_cons]
    by_cases hma : m = a
    · subst hma
      rw [epochSessionStep_grow st m info hl hg]
      refine epochFold_unassigned_mem t _ _ ?_
      show (m, MeasuredRps info - info.total_throughput) ∈
        st.unassigned_workloads ++ [(m, MeasuredRps info - info.total_throughput)]
      exact List.mem_append_right _ (List.mem_singleton_self _)
    · have hm2 : m ∈ t := by
        rcases List.mem_cons.1 hm with h | h
        · exact absurd h hma
        · exact h
      have hl2 : alookup m (EpochSessionStep st a).model_table = some info := by
        rw [epochSessionStep_model_table_other st a m hma]
        exact hl
      exact ih _ m info hm2 hl2 hg

/-- C3: for every session processed by the epoch pass, `measured_rps` is the
maximum entry of its `rps_history` (the current `total_throughput` when the
history is empty), the over-provision slack is 0.1, and whenever the measured
RPS exceeds `total_throughput × (1 + slack)` the pair
`(session, measured − total)` is appended to `unassigned_workloads`. -/
theorem EpochSchedule_measured_and_grow (st : SchedulerState) :
    over_provision_slack = 1 / 10 ∧
    ∀ m info, alookup m st.model_table = some info →
      ((info.rps_history = [] → MeasuredRps info = info.total_throughput) ∧
       (info.rps_history ≠ [] → MeasuredRps info ∈ info.rps_history ∧
         ∀ x ∈ info.rps_history, x ≤ MeasuredRps info)) ∧
      (MeasuredRps info > info.total_throughput * (1 + over_provision_slack) →
        (m, MeasuredRps info - info.total_throughput) ∈
          (EpochPass st).unassigned_workloads) := by
  refine ⟨rfl, ?_⟩
  intro m info hl
  refine ⟨⟨?_, ?_⟩, ?_⟩
  · intro he
    unfold MeasuredRps
    rw [he]
  · intro hne
    cases hh : info.rps_history with
    | nil => exact absurd hh hne
    | cons h t =>
      unfold MeasuredRps
      rw [hh]
      exact ⟨maxRList_mem t h, le_maxRList t h⟩
  · intro hg
    unfold EpochPass
    refine epochFold_grow_mem (keysOf st.model_table) st m info ?_ hl hg
    rw [mem_keysOf_iff]
    intro h2
    rw [hl] at h2
    cases h2

theorem EpochSchedule_measured_and_grow_witness :
    (alookup sessA epochState.model_table = some epochInfo ∧
     MeasuredRps epochInfo >
       epochInfo.total_throughput * (1 + over_provision_slack)) ∧
    (sessA, MeasuredRps epochInfo - epochInfo.total_throughput) ∈
      (EpochPass epochState).unassigned_workloads :=
  ⟨⟨by decide,
    by norm_num [epochInfo, MeasuredRps, maxRList, max_def,
      ModelInfo.total_throughput, over_provision_slack]⟩,
   ((EpochSchedule_measured_and_grow epochState).2 sessA epochInfo
     (by decide)).2
     (by norm_num [epochInfo, MeasuredRps, maxRList, max_def,
       ModelInfo.total_throughput, over_provision_slack])⟩

theorem backendsDominated_refl (l : List (ℕ × BackendDelegate)) :
    BackendsDominated l l := by
  refine ⟨rfl, ?_⟩
  intro id b2 b1 h2 h1
  rw [h2] at h1
  injection h1 with h1
  rw [h1]
  exact ⟨rfl, rfl, le_refl _⟩

theorem backendsDominated_trans (l3 l2 l1 : List (ℕ × BackendDelegate))
    (h32 : BackendsDominated l3 l2) (h21 : BackendsDominated l2 l1) :
    BackendsDominated l3 l1 := by
  refine ⟨h32.1.trans h21.1, ?_⟩
  intro id b3 b1 h3 h1
  have hmem : id ∈ keysOf l2 := by
    rw [← h32.1]
    rw [mem_keysOf_iff]
    intro hno
    rw [h3] at hno
    cases hno
  obtain ⟨b2, h2⟩ := Option.isSome_iff_exists.1 ((alookup_isSome_iff id l2).2 hmem)
  obtain ⟨e1, e2, e3⟩ := h32.2 id b3 b2 h3 h2
  obtain ⟨f1, f2, f3⟩ := h21.2 id b2 b1 h2 h1
  exact ⟨e1.trans f1, e2.trans f2, e3.trans f3⟩

theorem sumVals_mapVal_add_ge (m : String) (r : ℚ) (hr : 0 ≤ r)
    (l : List (String × ℚ)) :
    sumVals l ≤ sumVals (mapVal m (fun v => v + r) l) := by
  induction l with
  | nil => simp [sumVals, mapVal]
  | cons p t ih =>
    by_cases hp : p.1 = m
    · simp only [mapVal, List.map_cons, if_pos hp, sumVals, List.sum_cons] at *
      linarith
    · simp only [mapVal, List.map_cons, if_neg hp, sumVals, List.sum_cons] at *
      linarith

theorem sumVals_append (l l2 : List (String × ℚ)) :
    sumVals (l ++ l2) = sumVals l + sumVals l2 := by
  simp [sumVals]

theorem sumVals_upsert_add_ge (m : String) (r : ℚ) (hr : 0 ≤ r)
    (l : List (String × ℚ)) :
    sumVals l ≤ sumVals (upsert m (fun v => v + r) r l) := by
  unfold upsert
  by_cases hs : (alookup m l).isSome
  · rw [if_pos hs]
    exact sumVals_mapVal_add_ge m r hr l
  · rw [if_neg hs, sumVals_append]
    have : sumVals [(m, r)] = r := by simp [sumVals]
    rw [this]
    linarith

theorem unassigned_LoadModelOn (st : SchedulerState) (m : String) (bid : ℕ)
    (r : ℚ) :
    (LoadModelOn st m bid r).unassigned_workloads = st.unassigned_workloads := rfl

theorem dominated_LoadModelOn (st : SchedulerState) (m : String) (bid : ℕ)
    (r : ℚ) (hr : 0 ≤ r) :
    BackendsDominated (LoadModelOn st m bid r).backends st.backends := by
  unfold LoadModelOn
  dsimp only
  refine ⟨by simp, ?_⟩
  intro id b2 b1 h2 h1
  by_cases hid : id = bid
  · subst hid
    rw [alookup_mapVal_self, h1] at h2
    injection h2 with h2
    rw [← h2]
    refine ⟨rfl, rfl, ?_⟩
    unfold BackendDelegate.available_throughput
    dsimp only
    have := sumVals_upsert_add_ge m r hr b1.instances
    linarith
  · rw [alookup_mapVal_ne bid id _ st.backends hid, h1] at h2
    injection h2 with h2
    rw [h2]
    exact ⟨rfl, rfl, le_refl _⟩

theorem allocateGo_dominated (l : List (String × ℚ)) :
    ∀ st : SchedulerState, (∀ e ∈ l, 0 ≤ e.2) →
      BackendsDominated (AllocateGo st l).backends st.backends := by
  induction l with
  | nil => intro st _; exact backendsDominated_refl st.backends
  | cons e t ih =>
    intro st hpos
    simp only [AllocateGo]
    cases hf : FindBestBackend e.2 [] st.backends with
    | none =>
      exact ih _ (fun x hx => hpos x (List.mem_cons_of_mem e hx))
    | some q =>
      obtain ⟨bid, sc⟩ := q
      refine backendsDominated_trans _ _ _
        (ih _ (fun x hx => hpos x (List.mem_cons_of_mem e hx))) ?_
      exact dominated_LoadModelOn st e.1 bid e.2
        (hpos e (List.mem_cons_self e t))

theorem findBest_none_of_dominated (r : ℚ) (l2 l1 : List (ℕ × BackendDelegate))
    (hnd : (keysOf l1).Nodup) (hd : BackendsDominated l2 l1)
    (h : FindBestBackend r [] l1 = none) : FindBestBackend r [] l2 = none := by
  rw [findBestBackend_eq_none_iff] at h ⊢
  intro p hp
  have hnd2 : (keysOf l2).Nodup := by rw [hd.1]; exact hnd
  have h2 : alookup p.1 l2 = some p.2 := mem_alookup p.1 p.2 l2 hnd2 hp
  have hmem : p.1 ∈ keysOf l1 := by
    rw [← hd.1]
    rw [mem_keysOf_iff]
    intro hno
    rw [h2] at hno
    cases hno
  obtain ⟨b1, h1⟩ :=
    Option.isSome_iff_exists.1 ((alookup_isSome_iff p.1 l1).2 hmem)
  obtain ⟨e1, e2, e3⟩ := hd.2 p.1 p.2 b1 h2 h1
  rcases h (p.1, b1) (alookup_mem p.1 b1 l1 h1) with hs | hx | hq
  · simp at hs
  · exact Or.inr (Or.inl (e2.trans hx))
  · refine Or.inr (Or.inr ?_)
    unfold PrepareLoadModel at hq ⊢
    dsimp only at hq
    rw [if_neg]
    intro hle
    by_cases hle1 : r ≤ b1.available_throughput
    · rw [if_pos hle1] at hq
      cases hq
    · exact hle1 (le_trans hle e3)

theorem allocateGo_all_fail (l : List (String × ℚ)) :
    ∀ st : SchedulerState,
      (∀ e ∈ l, FindBestBackend e.2 [] st.backends = none) →
      AllocateGo st l =
        { st with unassigned_workloads := st.unassigned_workloads ++ l } := by
  induction l with
  | nil =>
    intro st _
    show st = _
    cases st
    simp [AllocateGo]
  | cons e t ih =>
    intro st hall
    simp only [AllocateGo, hall e (List.mem_cons_self e t)]
    rw [ih { st with unassigned_workloads := st.unassigned_workloads ++ [e] }
      (fun x hx => hall x (List.mem_cons_of_mem e hx))]
    cases st
    simp

theorem allocateGo_remaining_fail (l : List (String × ℚ)) :
    ∀ st : SchedulerState, (keysOf st.backends).Nodup →
      (∀ e ∈ l, 0 ≤ e.2) →
      ∀ e ∈ (AllocateGo st l).unassigned_workloads,
        e ∈ st.unassigned_workloads ∨
          FindBestBackend e.2 [] (AllocateGo st l).backends = none := by
  induction l with
  | nil =>
    intro st _ _ e he
    exact Or.inl he
  | cons a t ih =>
    intro st hnd hpos e he
    cases hf : FindBestBackend a.2 [] st.backends with
    | some q =>
      obtain ⟨bid, sc⟩ := q
      simp only [AllocateGo, hf] at he ⊢
      have hnd2 : (keysOf (LoadModelOn st a.1 bid a.2).backends).Nodup := by
        rw [backends_keysOf_LoadModelOn]
        exact hnd
      have hres := ih (LoadModelOn st a.1 bid a.2) hnd2
        (fun x hx => hpos x (List.mem_cons_of_mem a hx)) e he
      rcases hres with h | h
      · rw [unassigned_LoadModelOn] at h
        exact Or.inl h
      · exact Or.inr h
    | none =>
      simp only [AllocateGo, hf] at he ⊢
      have hres := ih
        { st with unassigned_workloads := st.unassigned_workloads ++ [a] }
        (by show (keysOf st.backends).Nodup; exact hnd)
        (fun x hx => hpos x (List.mem_cons_of_mem a hx)) e he
      rcases hres with h | h
      · have h2 : e ∈ st.unassigned_workloads ++ [a] := h
        rcases List.mem_append.1 h2 with h3 | h3
        · exact Or.inl h3
        · have hea : e = a := by simpa using h3
          subst hea
          refine Or.inr (findBest_none_of_dominated e.2 _ st.backends hnd ?_ hf)
          have hdom := allocateGo_dominated t
            { st with unassigned_workloads := st.unassigned_workloads ++ [e] }
            (fun x hx => hpos x (List.mem_cons_of_mem e hx))
          exact hdom
      · exact Or.inr h

/-- C5: running `AllocateUnassignedWorkloads` twice in succession, with no
change to the backends table between the calls, leaves the whole scheduler
state — in particular `unassigned_workloads`, `model_table` and the backends'
assignments — the same as running it once.  (Rates of pending workloads are
nonnegative, as request rates are.) -/
theorem AllocateUnassignedWorkloads_idempotent (st : SchedulerState)
    (hnd : (keysOf st.backends).Nodup)
    (hpos : ∀ e ∈ st.unassigned_workloads, 0 ≤ e.2) :
    AllocateUnassignedWorkloads (AllocateUnassignedWorkloads st) =
      AllocateUnassignedWorkloads st := by
  have hfail : ∀ e ∈ (AllocateUnassignedWorkloads st).unassigned_workloads,
      FindBestBackend e.2 [] (AllocateUnassignedWorkloads st).backends = none := by
    intro e he
    unfold AllocateUnassignedWorkloads at he ⊢
    have hres := allocateGo_remaining_fail st.unassigned_workloads
      { st with unassigned_workloads := [] }
      (by show (keysOf st.backends).Nodup; exact hnd)
      (by show ∀ e ∈ st.unassigned_workloads, 0 ≤ e.2; exact hpos) e he
    rcases hres with h | h
    · have h2 : e ∈ ([] : List (String × ℚ)) := h
      simp at h2
    · exact h
  have hstep : ∀ S : SchedulerState,
      (∀ e ∈ S.unassigned_workloads, FindBestBackend e.2 [] S.backends = none) →
      AllocateUnassignedWorkloads S = S := by
    intro S hf
    unfold AllocateUnassignedWorkloads
    have hf2 : ∀ e ∈ S.unassigned_workloads,
        FindBestBackend e.2 []
          ({ S with unassigned_workloads := ([] : List (String × ℚ)) }).backends =
          none := hf
    rw [allocateGo_all_fail S.unassigned_workloads
      { S with unassigned_workloads := [] } hf2]
    cases S
    simp
  exact hstep (AllocateUnassignedWorkloads st) hfail

theorem AllocateUnassignedWorkloads_idempotent_witness :
    ((keysOf allocState.backends).Nodup ∧
     (∀ e ∈ allocState.unassigned_workloads, 0 ≤ e.2)) ∧
    AllocateUnassignedWorkloads (AllocateUnassignedWorkloads allocState) =
      AllocateUnassignedWorkloads allocState :=
  ⟨⟨by decide, by decide⟩,
   AllocateUnassignedWorkloads_idempotent allocState (by decide) (by decide)⟩

theorem eraseKey_append (k : κ) (l l2 : List (κ × α)) :
    eraseKey k (l ++ l2) = eraseKey k l ++ eraseKey k l2 := by
  simp [eraseKey]

theorem eraseKey_eq_self_of_alookup_none (k : κ) (l : List (κ × α))
    (h : alookup k l = none) : eraseKey k l = l := by
  rw [alookup_eq_none_iff] at h
  unfold eraseKey
  apply List.filter_eq_self.2
  intro p hp
  have hne : p.1 ≠ k := by
    intro he
    exact h (by
      simp only [keysOf, List.mem_map]
      exact ⟨p, hp, he⟩)
  simp [hne]

theorem mapVal_eq_self_of_alookup_none (k : κ) (f : α → α) (l : List (κ × α))
    (h : alookup k l = none) : mapVal k f l = l := by
  rw [alookup_eq_none_iff] at h
  unfold mapVal
  have hcong : ∀ p ∈ l, (if p.1 = k then (p.1, f p.2) else p) = p := by
    intro p hp
    rw [if_neg]
    intro he
    exact absurd (by
      simp only [keysOf, List.mem_map]
      exact ⟨p, hp, he⟩) h
  rw [List.map_congr_left hcong]
  simp

theorem mapVal_append (k : κ) (f : α → α) (l l2 : List (κ × α)) :
    mapVal k f (l ++ l2) = mapVal k f l ++ mapVal k f l2 := by
  simp [mapVal]

theorem frontends_AllocateGo (l : List (String × ℚ)) :
    ∀ st : SchedulerState, (AllocateGo st l).frontends = st.frontends := by
  induction l with
  | nil => intro st; rfl
  | cons e t ih =>
    intro st
    simp only [AllocateGo]
    cases hf : FindBestBackend e.2 [] st.backends with
    | none => exact ih _
    | some q =>
      obtain ⟨bid, sc⟩ := q
      rw [ih _]
      rfl

theorem statics_AllocateGo (l : List (String × ℚ)) :
    ∀ st : SchedulerState,
      (AllocateGo st l).static_workloads = st.static_workloads ∧
      (AllocateGo st l).assigned_static_workloads =
        st.assigned_static_workloads := by
  induction l with
  | nil => intro st; exact ⟨rfl, rfl⟩
  | cons e t ih =>
    intro st
    simp only [AllocateGo]
    cases hf : FindBestBackend e.2 [] st.backends with
    | none => exact ih _
    | some q =>
      obtain ⟨bid, sc⟩ := q
      obtain ⟨h1, h2⟩ := ih (LoadModelOn st e.1 bid e.2)
      exact ⟨h1.trans rfl, h2.trans rfl⟩

theorem staticBacked_congr (st st2 : SchedulerState) (m : String)
    (h1 : st2.static_workloads = st.static_workloads)
    (h2 : st2.assigned_static_workloads = st.assigned_static_workloads) :
    StaticBacked st2 m = StaticBacked st m := by
  unfold StaticBacked
  rw [h1, h2]

theorem ensureModelInfo_fresh (st : SchedulerState) (f : ℕ) (s : String)
    (hs : alookup s st.model_table = none) :
    (EnsureModelInfo (SubscribeFrontend st f s) f s).model_table =
      st.model_table ++
        [(s, { backend_throughputs := [], subscribers := [f],
               rps_history := [] })] := by
  unfold EnsureModelInfo SubscribeFrontend
  dsimp only
  unfold upsert
  rw [if_neg]
  rw [hs]
  simp

theorem sessionBacked_fresh (st : SchedulerState) (f : ℕ) (s : String)
    (hs : alookup s st.model_table = none) :
    SessionBacked (EnsureModelInfo (SubscribeFrontend st f s) f s) s = false := by
  unfold SessionBacked
  rw [ensureModelInfo_fresh st f s hs, alookup_append, hs]
  simp [alookup_cons]

theorem loadModelState_fresh (st : SchedulerState) (f : ℕ) (s : String) (r : ℚ)
    (hs : alookup s st.model_table = none) (hu : st.unassigned_workloads = []) :
    ∃ X : ModelInfo, X.subscribers = [f] ∧
      (LoadModelState st f s r).model_table = st.model_table ++ [(s, X)] ∧
      (LoadModelState st f s r).frontends =
        (SubscribeFrontend st f s).frontends ∧
      (LoadModelState st f s r).static_workloads = st.static_workloads ∧
      (LoadModelState st f s r).assigned_static_workloads =
        st.assigned_static_workloads := by
  have hrw : LoadModelState st f s r =
      AllocateUnassignedWorkloads
        (if SessionBacked (EnsureModelInfo (SubscribeFrontend st f s) f s) s
         then EnsureModelInfo (SubscribeFrontend st f s) f s
         else { EnsureModelInfo (SubscribeFrontend st f s) f s with
                unassigned_workloads :=
                  (EnsureModelInfo
                    (SubscribeFrontend st f s) f s).unassigned_workloads
                    ++ [(s, r)] }) := rfl
  rw [hrw, sessionBacked_fresh st f s hs]
  simp only [Bool.false_eq_true, if_false]
  unfold AllocateUnassignedWorkloads
  have hun : ({ EnsureModelInfo (SubscribeFrontend st f s) f s with
      unassigned_workloads :=
        (EnsureModelInfo (SubscribeFrontend st f s) f s).unassigned_workloads
          ++ [(s, r)] } : SchedulerState).unassigned_workloads = [(s, r)] := by
    show (EnsureModelInfo
      (SubscribeFrontend st f s) f s).unassigned_workloads ++ [(s, r)] = [(s, r)]
    show st.unassigned_workloads ++ [(s, r)] = [(s, r)]
    rw [hu]
    rfl
  rw [hun]
  simp only [AllocateGo]
  have hbks : ({ { EnsureModelInfo (SubscribeFrontend st f s) f s with
      unassigned_workloads :=
        (EnsureModelInfo (SubscribeFrontend st f s) f s).unassigned_workloads
          ++ [(s, r)] } with
      unassigned_workloads := ([] : List (String × ℚ)) } :
        SchedulerState).backends = st.backends := rfl
  rw [hbks]
  cases hf : FindBestBackend r [] st.backends with
  | none =>
    refine ⟨{ backend_throughputs := [], subscribers := [f],
              rps_history := [] }, rfl, ?_, ?_, ?_, ?_⟩
    · show (EnsureModelInfo (SubscribeFrontend st f s) f s).model_table = _
      exact ensureModelInfo_fresh st f s hs
    · rfl
    · rfl
    · rfl
  | some q =>
    obtain ⟨bid, sc⟩ := q
    refine ⟨{ backend_throughputs := [(bid, r)], subscribers := [f],
              rps_history := [] }, rfl, ?_, ?_, ?_, ?_⟩
    · show (LoadModelOn _ s bid r).model_table = _
      unfold LoadModelOn
      dsimp only
      have hinner : alookup s ({ { EnsureModelInfo
          (SubscribeFrontend st f s) f s with
          unassigned_workloads :=
            (EnsureModelInfo (SubscribeFrontend st f s) f s).unassigned_workloads
              ++ [(s, r)] } with
          unassigned_workloads := ([] : List (String × ℚ)) } :
            SchedulerState).model_table =
          some { backend_throughputs := [], subscribers := [f],
                 rps_history := [] } := by
        show alookup s
          (EnsureModelInfo (SubscribeFrontend st f s) f s).model_table = _
        rw [ensureModelInfo_fresh st f s hs, alookup_append, hs]
        simp [alookup_cons]
      unfold upsert
      rw [if_pos]
      · show mapVal s _
          (EnsureModelInfo (SubscribeFrontend st f s) f s).model_table = _
        rw [ensureModelInfo_fresh st f s hs, mapVal_append,
          mapVal_eq_self_of_alookup_none s _ st.model_table hs]
        simp [mapVal]
      · rw [hinner]
        rfl
    · rfl
    · rfl
    · rfl

theorem unregister_lone_subscriber (T : SchedulerState) (f : ℕ) (s : String)
    (fr2 : FrontendDelegate) (X : ModelInfo)
    (hTf : alookup f T.frontends = some fr2)
    (hfr2 : fr2.subscriptions = [s])
    (hTs : alookup s T.model_table = some X)
    (hX : X.subscribers = [f])
    (hstat : StaticBacked T s = false) :
    ((Unregister T f).2).model_table = eraseKey s T.model_table := by
  have hU : (Unregister T f).2 = RemoveFrontend T f := by
    unfold Unregister
    rw [hTf]
    simp
  rw [hU]
  simp only [RemoveFrontend, GetFrontend, hTf]
  rw [hfr2]
  simp only [List.foldl_cons, List.foldl_nil]
  have h5 : alookup s
      ({ T with frontends := eraseKey f T.frontends } : SchedulerState).model_table =
      some X := hTs
  simp only [DropSubscriber, h5]
  have hcond : X.subscribers.filter (fun x => x ≠ f) = [] ∧
      StaticBacked { T with frontends := eraseKey f T.frontends } s = false := by
    constructor
    · rw [hX]
      simp
    · exact hstat
  rw [if_pos hcond]
  rfl

/-- C4 (amended): for a frontend `f` with no prior subscriptions, a session `s`
not yet in `model_table` and with no static-slot backing, and an empty
`unassigned_workloads`, the sequence `LoadModel(f, s, r); Unregister(f)` leaves
`model_table` as it was before the `LoadModel`. -/
theorem LoadModel_Unregister_roundtrip (st : SchedulerState) (f : ℕ)
    (s : String) (r : ℚ) (fr : FrontendDelegate)
    (hf : alookup f st.frontends = some fr)
    (hsub : fr.subscriptions = [])
    (hs : alookup s st.model_table = none)
    (hu : st.unassigned_workloads = [])
    (hstat : StaticBacked st s = false) :
    ((Unregister (LoadModel st f s r).2 f).2).model_table = st.model_table := by
  have hL : (LoadModel st f s r).2 = LoadModelState st f s r := by
    unfold LoadModel GetFrontend
    rw [hf]
  rw [hL]
  obtain ⟨X, hXsub, hmt, hfre, hsw, hasw⟩ := loadModelState_fresh st f s r hs hu
  have hTf : alookup f (LoadModelState st f s r).frontends =
      some { fr with subscriptions := [s] } := by
    rw [hfre]
    unfold SubscribeFrontend
    dsimp only
    rw [alookup_mapVal_self, hf]
    simp [hsub]
  have hTs : alookup s (LoadModelState st f s r).model_table = some X := by
    rw [hmt, alookup_append, hs]
    simp [alookup_cons]
  have hTstat : StaticBacked (LoadModelState st f s r) s = false := by
    rw [staticBacked_congr st (LoadModelState st f s r) s hsw hasw]
    exact hstat
  rw [unregister_lone_subscriber (LoadModelState st f s r) f s
    { fr with subscriptions := [s] } X hTf rfl hTs hXsub hTstat]
  rw [hmt, eraseKey_append, eraseKey_eq_self_of_alookup_none s st.model_table hs]
  simp [eraseKey]

/-- C4 counterexample: in `cexState` the session `sessA` has no subscribers and
no static-slot backing, yet `LoadModel(2, sessA, 5); Unregister(2)` does not
restore `model_table`: unregistering frontend 2 also deletes `sessB`, whose
sole subscriber it was. -/
theorem LoadModel_Unregister_roundtrip_counterexample :
    alookup sessA cexState.model_table = none ∧
    StaticBacked cexState sessA = false ∧
    ((Unregister (LoadModel cexState 2 sessA 5).2 2).2).model_table ≠
      cexState.model_table := by
  refine ⟨by decide, by decide, ?_⟩
  decide

theorem LoadModel_Unregister_roundtrip_witness :
    (alookup 2 sampleState.frontends =
       some { subscriptions := [], last_beacon := 0 } ∧
     alookup sessA sampleState.model_table = none ∧
     sampleState.unassigned_workloads = [] ∧
     StaticBacked sampleState sessA = false) ∧
    ((Unregister (LoadModel sampleState 2 sessA 5).2 2).2).model_table =
      sampleState.model_table :=
  ⟨⟨by decide, by decide, by decide, by decide⟩,
   LoadModel_Unregister_roundtrip sampleState 2 sessA 5
     { subscriptions := [], last_beacon := 0 }
     (by decide) rfl (by decide) (by decide) (by decide)⟩

theorem alookup_map_val_all (g : α → α) (k : κ) (l : List (κ × α)) :
    alookup k (l.map (fun p => (p.1, g p.2))) = (alookup k l).map g := by
  induction l with
  | nil => rfl
  | cons p t ih =>
    by_cases hp : p.1 = k
    · simp [alookup_cons, hp]
    · simpa [alookup_cons, hp] using ih

theorem keysOf_map_val_all (g : α → α) (l : List (κ × α)) :
    keysOf (l.map (fun p => (p.1, g p.2))) = keysOf l := by
  unfold keysOf
  rw [List.map_map]
  rfl

theorem inv_align (st : SchedulerState) (hInv : Inv st) (m : String)
    (i : ModelInfo) (bid : ℕ) (b : BackendDelegate)
    (hm : alookup m st.model_table = some i)
    (hb : alookup bid st.backends = some b) :
    alookup bid i.backend_throughputs = alookup m b.instances := by
  cases h1 : alookup bid i.backend_throughputs with
  | some r =>
    obtain ⟨b2, hb2, hi2⟩ := hInv.forward m i bid r hm h1
    rw [hb] at hb2
    injection hb2 with hb2
    rw [← hb2] at hi2
    exact hi2.symm
  | none =>
    cases h2 : alookup m b.instances with
    | none => rfl
    | some r =>
      obtain ⟨i2, hi2, hbt2⟩ := hInv.backward bid b m r hb h2
      rw [hm] at hi2
      injection hi2 with hi2
      rw [← hi2] at hbt2
      rw [hbt2] at h1
      cases h1

theorem inv_not_in_table (st : SchedulerState) (hInv : Inv st) (m : String)
    (bid : ℕ) (b : BackendDelegate)
    (hm : alookup m st.model_table = none)
    (hb : alookup bid st.backends = some b) :
    alookup m b.instances = none := by
  cases h2 : alookup m b.instances with
  | none => rfl
  | some r =>
    obtain ⟨i2, hi2, _⟩ := hInv.backward bid b m r hb h2
    rw [hm] at hi2
    cases hi2

theorem inv_frame (st st2 : SchedulerState) (hInv : Inv st)
    (hb : st2.backends = st.backends) (hm : st2.model_table = st.model_table)
    (hn : st.next_node_id ≤ st2.next_node_id) : Inv st2 := by
  refine ⟨?_, ?_, ?_, ?_, ?_, ?_, ?_⟩
  · rw [hb]; exact hInv.nodupB
  · rw [hm]; exact hInv.nodupM
  · rw [hb]; exact hInv.nodupI
  · rw [hm]; exact hInv.nodupT
  · intro id hid
    rw [hb] at hid
    exact lt_of_lt_of_le (hInv.bound id hid) hn
  · rw [hm, hb]; exact hInv.forward
  · rw [hm, hb]; exact hInv.backward

theorem inv_LoadModelOn (st : SchedulerState) (m : String) (bid : ℕ) (r : ℚ)
    (b0 : BackendDelegate) (hb0 : alookup bid st.backends = some b0)
    (hInv : Inv st) : Inv (LoadModelOn st m bid r) := by
  have hBK : (LoadModelOn st m bid r).backends =
      mapVal bid
        (fun b => { b with instances := upsert m (fun v => v + r) r b.instances })
        st.backends := rfl
  have hMT : (LoadModelOn st m bid r).model_table =
      upsert m
        (fun i =>
          { i with backend_throughputs :=
                     upsert bid (fun v => v + r) r i.backend_throughputs })
        { backend_throughputs := [(bid, r)], subscribers := [],
          rps_history := [] }
        st.model_table := rfl
  constructor
  case nodupB =>
    rw [hBK]
    simpa using hInv.nodupB
  case nodupM =>
    rw [hMT]
    exact keysOf_upsert_nodup _ _ _ _ hInv.nodupM
  case nodupI =>
    intro id b hb
    rw [hBK] at hb
    by_cases hid : id = bid
    · subst hid
      rw [alookup_mapVal_self, hb0] at hb
      injection hb with hb
      rw [← hb]
      dsimp only
      exact keysOf_upsert_nodup _ _ _ _ (hInv.nodupI id b0 hb0)
    · rw [alookup_mapVal_ne bid id _ _ hid] at hb
      exact hInv.nodupI id b hb
  case nodupT =>
    intro m2 i hi
    rw [hMT] at hi
    by_cases hmm : m2 = m
    · subst hmm
      cases hold : alookup m2 st.model_table with
      | some iold =>
        simp only [alookup_upsert_self, hold] at hi
        injection hi with hi
        rw [← hi]
        dsimp only
        exact keysOf_upsert_nodup _ _ _ _ (hInv.nodupT m2 iold hold)
      | none =>
        simp only [alookup_upsert_self, hold] at hi
        injection hi with hi
        rw [← hi]
        simp [keysOf]
    · rw [alookup_upsert_ne m m2 _ _ _ hmm] at hi
      exact hInv.nodupT m2 i hi
  case bound =>
    intro id hid
    rw [hBK] at hid
    rw [keysOf_mapVal] at hid
    exact hInv.bound id hid
  case forward =>
    intro m2 i2 bid2 r2 hm2 hbt2
    rw [hMT] at hm2
    rw [hBK]
    by_cases hmm : m2 = m
    · subst hmm
      cases hold : alookup m2 st.model_table with
      | some iold =>
        simp only [alookup_upsert_self, hold] at hm2
        injection hm2 with hm2
        rw [← hm2] at hbt2
        dsimp only at hbt2
        by_cases hbb : bid2 = bid
        · subst hbb
          rw [alookup_upsert_self] at hbt2
          injection hbt2 with hbt2
          refine ⟨_, by rw [alookup_mapVal_self, hb0]; rfl, ?_⟩
          dsimp only
          rw [alookup_upsert_self]
          have halign := inv_align st hInv m2 iold bid2 b0 hold hb0
          rw [← halign]
          rw [hbt2]
        · rw [alookup_upsert_ne bid bid2 _ _ _ hbb] at hbt2
          obtain ⟨b2, hb2, hi2⟩ := hInv.forward m2 iold bid2 r2 hold hbt2
          refine ⟨b2, ?_, hi2⟩
          rw [alookup_mapVal_ne bid bid2 _ _ hbb]
          exact hb2
      | none =>
        simp only [alookup_upsert_self, hold] at hm2
        injection hm2 with hm2
        rw [← hm2] at hbt2
        dsimp only at hbt2
        rw [alookup_cons] at hbt2
        by_cases hbb : bid = bid2
        · rw [if_pos ?_] at hbt2
          · injection hbt2 with hbt2
            subst hbb
            refine ⟨_, by rw [alookup_mapVal_self, hb0]; rfl, ?_⟩
            dsimp only
            rw [alookup_upsert_self]
            rw [inv_not_in_table st hInv m2 bid b0 hold hb0]
            dsimp only at hbt2
            show some r = some r2
            rw [hbt2]
          · exact hbb
        · rw [if_neg ?_] at hbt2
          · rw [alookup_nil] at hbt2
            cases hbt2
          · exact hbb
    · rw [alookup_upsert_ne m m2 _ _ _ hmm] at hm2
      obtain ⟨b2, hb2, hi2⟩ := hInv.forward m2 i2 bid2 r2 hm2 hbt2
      by_cases hbb : bid2 = bid
      · subst hbb
        rw [hb0] at hb2
        injection hb2 with hb2
        refine ⟨_, by rw [alookup_mapVal_self, hb0]; rfl, ?_⟩
        dsimp only
        rw [alookup_upsert_ne m m2 _ _ _ hmm]
        rw [← hb2] at hi2
        exact hi2
      · refine ⟨b2, ?_, hi2⟩
        rw [alookup_mapVal_ne bid bid2 _ _ hbb]
        exact hb2
  case backward =>
    intro bid2 b2 m2 r2 hb2 hi2
    rw [hBK] at hb2
    rw [hMT]
    by_cases hbb : bid2 = bid
    · subst hbb
      rw [alookup_mapVal_self, hb0] at hb2
      injection hb2 with hb2
      rw [← hb2] at hi2
      dsimp only at hi2
      by_cases hmm : m2 = m
      · subst hmm
        rw [alookup_upsert_self] at hi2
        injection hi2 with hi2
        cases hold : alookup m2 st.model_table with
        | some iold =>
          refine ⟨_, by simp only [alookup_upsert_self, hold]; rfl, ?_⟩
          dsimp only
          rw [alookup_upsert_self]
          have halign := inv_align st hInv m2 iold bid2 b0 hold hb0
          rw [halign]
          rw [hi2]
        | none =>
          refine ⟨_, by simp only [alookup_upsert_self, hold]; rfl, ?_⟩
          dsimp only
          rw [inv_not_in_table st hInv m2 bid2 b0 hold hb0] at hi2
          dsimp only at hi2
          rw [alookup_cons, if_pos rfl]
          dsimp only
          rw [hi2]
      · rw [alookup_upsert_ne m m2 _ _ _ hmm] at hi2
        obtain ⟨i2, hti2, hbt2⟩ := hInv.backward bid2 b0 m2 r2 hb0 hi2
        refine ⟨i2, ?_, hbt2⟩
        rw [alookup_upsert_ne m m2 _ _ _ hmm]
        exact hti2
    · rw [alookup_mapVal_ne bid bid2 _ _ hbb] at hb2
      obtain ⟨i2, hti2, hbt2⟩ := hInv.backward bid2 b2 m2 r2 hb2 hi2
      by_cases hmm : m2 = m
      · subst hmm
        refine ⟨_, by simp only [alookup_upsert_self, hti2]; rfl, ?_⟩
        dsimp only
        rw [alookup_upsert_ne bid bid2 _ _ _ hbb]
        exact hbt2
      · refine ⟨i2, ?_, hbt2⟩
        rw [alookup_upsert_ne m m2 _ _ _ hmm]
        exact hti2

theorem inv_SetReservation (st : SchedulerState) (m : String) (bid : ℕ)
    (v : ℚ) (hInv : Inv st) : Inv (SetReservation st m bid v) := by
  have hBK : (SetReservation st m bid v).backends =
      mapVal bid (fun b => { b with instances := mapVal m (fun _ => v) b.instances })
        st.backends := rfl
  have hMT : (SetReservation st m bid v).model_table =
      mapVal m
        (fun i =>
          { i with backend_throughputs :=
                     mapVal bid (fun _ => v) i.backend_throughputs })
        st.model_table := rfl
  constructor
  case nodupB => rw [hBK]; simpa using hInv.nodupB
  case nodupM => rw [hMT]; simpa using hInv.nodupM
  case nodupI =>
    intro id b hb
    rw [hBK] at hb
    by_cases hid : id = bid
    · subst hid
      rw [alookup_mapVal_self] at hb
      obtain ⟨b1, hb1, hgb⟩ := Option.map_eq_some'.1 hb
      rw [← hgb]
      dsimp only
      rw [keysOf_mapVal]
      exact hInv.nodupI id b1 hb1
    · rw [alookup_mapVal_ne bid id _ _ hid] at hb
      exact hInv.nodupI id b hb
  case nodupT =>
    intro m2 i hi
    rw [hMT] at hi
    by_cases hmm : m2 = m
    · subst hmm
      rw [alookup_mapVal_self] at hi
      obtain ⟨i1, hi1, hgi⟩ := Option.map_eq_some'.1 hi
      rw [← hgi]
      dsimp only
      rw [keysOf_mapVal]
      exact hInv.nodupT m2 i1 hi1
    · rw [alookup_mapVal_ne m m2 _ _ hmm] at hi
      exact hInv.nodupT m2 i hi
  case bound =>
    intro id hid
    rw [hBK, keysOf_mapVal] at hid
    exact hInv.bound id hid
  case forward =>
    intro m2 i2 bid2 r2 hm2 hbt2
    rw [hMT] at hm2
    rw [hBK]
    by_cases hmm : m2 = m
    · subst hmm
      rw [alookup_mapVal_self] at hm2
      obtain ⟨i1, hi1, hgi⟩ := Option.map_eq_some'.1 hm2
      rw [← hgi] at hbt2
      dsimp only at hbt2
      by_cases hbb : bid2 = bid
      · subst hbb
        rw [alookup_mapVal_self] at hbt2
        obtain ⟨r1, hr1, hgr⟩ := Option.map_eq_some'.1 hbt2
        obtain ⟨b1, hb1, hbi1⟩ := hInv.forward m2 i1 bid2 r1 hi1 hr1
        refine ⟨_, by rw [alookup_mapVal_self, hb1]; rfl, ?_⟩
        dsimp only
        rw [alookup_mapVal_self, hbi1, ← hgr]
        rfl
      · rw [alookup_mapVal_ne bid bid2 _ _ hbb] at hbt2
        obtain ⟨b1, hb1, hbi1⟩ := hInv.forward m2 i1 bid2 r2 hi1 hbt2
        refine ⟨b1, ?_, hbi1⟩
        rw [alookup_mapVal_ne bid bid2 _ _ hbb]
        exact hb1
    · rw [alookup_mapVal_ne m m2 _ _ hmm] at hm2
      obtain ⟨b1, hb1, hbi1⟩ := hInv.forward m2 i2 bid2 r2 hm2 hbt2
      by_cases hbb : bid2 = bid
      · subst hbb
        refine ⟨_, by rw [alookup_mapVal_self, hb1]; rfl, ?_⟩
        dsimp only
        rw [alookup_mapVal_ne m m2 _ _ hmm]
        exact hbi1
      · refine ⟨b1, ?_, hbi1⟩
        rw [alookup_mapVal_ne bid bid2 _ _ hbb]
        exact hb1
  case backward =>
    intro bid2 b2 m2 r2 hb2 hi2
    rw [hBK] at hb2
    rw [hMT]
    by_cases hbb : bid2 = bid
    · subst hbb
      rw [alookup_mapVal_self] at hb2
      obtain ⟨b1, hb1, hgb⟩ := Option.map_eq_some'.1 hb2
      rw [← hgb] at hi2
      dsimp only at hi2
      by_cases hmm : m2 = m
      · subst hmm
        rw [alookup_mapVal_self] at hi2
        obtain ⟨r1, hr1, hgr⟩ := Option.map_eq_some'.1 hi2
        obtain ⟨i1, hi1, hbt1⟩ := hInv.backward bid2 b1 m2 r1 hb1 hr1
        refine ⟨_, by rw [alookup_mapVal_self, hi1]; rfl, ?_⟩
        dsimp only
        rw [alookup_mapVal_self, hbt1, ← hgr]
        rfl
      · rw [alookup_mapVal_ne m m2 _ _ hmm] at hi2
        obtain ⟨i1, hi1, hbt1⟩ := hInv.backward bid2 b1 m2 r2 hb1 hi2
        refine ⟨i1, ?_, hbt1⟩
        rw [alookup_mapVal_ne m m2 _ _ hmm]
        exact hi1
    · rw [alookup_mapVal_ne bid bid2 _ _ hbb] at hb2
      obtain ⟨i1, hi1, hbt1⟩ := hInv.backward bid2 b2 m2 r2 hb2 hi2
      by_cases hmm : m2 = m
      · subst hmm
        refine ⟨_, by rw [alookup_mapVal_self, hi1]; rfl, ?_⟩
        dsimp only
        rw [alookup_mapVal_ne bid bid2 _ _ hbb]
        exact hbt1
      · refine ⟨i1, ?_, hbt1⟩
        rw [alookup_mapVal_ne m m2 _ _ hmm]
        exact hi1

theorem alookup_eraseKey_some (k k2 : κ) (l : List (κ × α)) (r : α)
    (h : alookup k2 (eraseKey k l) = some r) : k2 ≠ k ∧ alookup k2 l = some r := by
  by_cases hk : k2 = k
  · subst hk
    rw [alookup_eraseKey_self] at h
    cases h
  · refine ⟨hk, ?_⟩
    rw [← alookup_eraseKey_ne k k2 l hk]
    exact h

theorem inv_UnloadModelFrom (st : SchedulerState) (m : String) (bid : ℕ)
    (hInv : Inv st) : Inv (UnloadModelFrom st m bid) := by
  have hBK : (UnloadModelFrom st m bid).backends =
      mapVal bid (fun b => { b with instances := eraseKey m b.instances })
        st.backends := rfl
  have hMT : (UnloadModelFrom st m bid).model_table =
      mapVal m
        (fun i =>
          { i with backend_throughputs := eraseKey bid i.backend_throughputs })
        st.model_table := rfl
  constructor
  case nodupB => rw [hBK]; simpa using hInv.nodupB
  case nodupM => rw [hMT]; simpa using hInv.nodupM
  case nodupI =>
    intro id b hb
    rw [hBK] at hb
    by_cases hid : id = bid
    · subst hid
      rw [alookup_mapVal_self] at hb
      obtain ⟨b1, hb1, hgb⟩ := Option.map_eq_some'.1 hb
      rw [← hgb]
      dsimp only
      exact nodup_keysOf_eraseKey m b1.instances (hInv.nodupI id b1 hb1)
    · rw [alookup_mapVal_ne bid id _ _ hid] at hb
      exact hInv.nodupI id b hb
  case nodupT =>
    intro m2 i hi
    rw [hMT] at hi
    by_cases hmm : m2 = m
    · subst hmm
      rw [alookup_mapVal_self] at hi
      obtain ⟨i1, hi1, hgi⟩ := Option.map_eq_some'.1 hi
      rw [← hgi]
      dsimp only
      exact nodup_keysOf_eraseKey bid i1.backend_throughputs
        (hInv.nodupT m2 i1 hi1)
    · rw [alookup_mapVal_ne m m2 _ _ hmm] at hi
      exact hInv.nodupT m2 i hi
  case bound =>
    intro id hid
    rw [hBK, keysOf_mapVal] at hid
    exact hInv.bound id hid
  case forward =>
    intro m2 i2 bid2 r2 hm2 hbt2
    rw [hMT] at hm2
    rw [hBK]
    by_cases hmm : m2 = m
    · subst hmm
      rw [alookup_mapVal_self] at hm2
      obtain ⟨i1, hi1, hgi⟩ := Option.map_eq_some'.1 hm2
      rw [← hgi] at hbt2
      dsimp only at hbt2
      obtain ⟨hne, hbt1⟩ := alookup_eraseKey_some bid bid2 _ r2 hbt2
      obtain ⟨b1, hb1, hbi1⟩ := hInv.forward m2 i1 bid2 r2 hi1 hbt1
      refine ⟨b1, ?_, hbi1⟩
      rw [alookup_mapVal_ne bid bid2 _ _ hne]
      exact hb1
    · rw [alookup_mapVal_ne m m2 _ _ hmm] at hm2
      obtain ⟨b1, hb1, hbi1⟩ := hInv.forward m2 i2 bid2 r2 hm2 hbt2
      by_cases hbb : bid2 = bid
      · subst hbb
        refine ⟨_, by rw [alookup_mapVal_self, hb1]; rfl, ?_⟩
        dsimp only
        rw [alookup_eraseKey_ne m m2 _ hmm]
        exact hbi1
      · refine ⟨b1, ?_, hbi1⟩
        rw [alookup_mapVal_ne bid bid2 _ _ hbb]
        exact hb1
  case backward =>
    intro bid2 b2 m2 r2 hb2 hi2
    rw [hBK] at hb2
    rw [hMT]
    by_cases hbb : bid2 = bid
    · subst hbb
      rw [alookup_mapVal_self] at hb2
      obtain ⟨b1, hb1, hgb⟩ := Option.map_eq_some'.1 hb2
      rw [← hgb] at hi2
      dsimp only at hi2
      obtain ⟨hne, hi1⟩ := alookup_eraseKey_some m m2 _ r2 hi2
      obtain ⟨i1, hti1, hbt1⟩ := hInv.backward bid2 b1 m2 r2 hb1 hi1
      refine ⟨i1, ?_, hbt1⟩
      rw [alookup_mapVal_ne m m2 _ _ hne]
      exact hti1
    · rw [alookup_mapVal_ne bid bid2 _ _ hbb] at hb2
      obtain ⟨i1, hti1, hbt1⟩ := hInv.backward bid2 b2 m2 r2 hb2 hi2
      by_cases hmm : m2 = m
      · subst hmm
        refine ⟨_, by rw [alookup_mapVal_self, hti1]; rfl, ?_⟩
        dsimp only
        rw [alookup_eraseKey_ne bid bid2 _ hbb]
        exact hbt1
      · refine ⟨i1, ?_, hbt1⟩
        rw [alookup_mapVal_ne m m2 _ _ hmm]
        exact hti1

theorem inv_DeleteSession (st : SchedulerState) (m : String) (hInv : Inv st) :
    Inv (DeleteSession st m) := by
  have hBK : (DeleteSession st m).backends =
      st.backends.map (fun p => (p.1, dropInstance m p.2)) := rfl
  have hMT : (DeleteSession st m).model_table =
      eraseKey m st.model_table := rfl
  have hdi : ∀ b : BackendDelegate,
      (dropInstance m b).instances = eraseKey m b.instances := fun b => rfl
  constructor
  case nodupB =>
    rw [hBK, keysOf_map_val_all]
    exact hInv.nodupB
  case nodupM =>
    rw [hMT]
    exact nodup_keysOf_eraseKey m st.model_table hInv.nodupM
  case nodupI =>
    intro id b hb
    rw [hBK, alookup_map_val_all] at hb
    obtain ⟨b1, hb1, hgb⟩ := Option.map_eq_some'.1 hb
    rw [← hgb, hdi]
    exact nodup_keysOf_eraseKey m b1.instances (hInv.nodupI id b1 hb1)
  case nodupT =>
    intro m2 i hi
    rw [hMT] at hi
    obtain ⟨_, hi1⟩ := alookup_eraseKey_some m m2 _ i hi
    exact hInv.nodupT m2 i hi1
  case bound =>
    intro id hid
    rw [hBK, keysOf_map_val_all] at hid
    exact hInv.bound id hid
  case forward =>
    intro m2 i2 bid2 r2 hm2 hbt2
    rw [hMT] at hm2
    rw [hBK]
    obtain ⟨hne, hm1⟩ := alookup_eraseKey_some m m2 _ i2 hm2
    obtain ⟨b1, hb1, hbi1⟩ := hInv.forward m2 i2 bid2 r2 hm1 hbt2
    refine ⟨dropInstance m b1, ?_, ?_⟩
    · rw [alookup_map_val_all, hb1]
      rfl
    · rw [hdi, alookup_eraseKey_ne m m2 _ hne]
      exact hbi1
  case backward =>
    intro bid2 b2 m2 r2 hb2 hi2
    rw [hBK, alookup_map_val_all] at hb2
    rw [hMT]
    obtain ⟨b1, hb1, hgb⟩ := Option.map_eq_some'.1 hb2
    rw [← hgb, hdi] at hi2
    obtain ⟨hne, hi1⟩ := alookup_eraseKey_some m m2 _ r2 hi2
    obtain ⟨i1, hti1, hbt1⟩ := hInv.backward bid2 b1 m2 r2 hb1 hi1
    refine ⟨i1, ?_, hbt1⟩
    rw [alookup_eraseKey_ne m m2 _ hne]
    exact hti1

theorem inv_mapVal_backend (st st2 : SchedulerState) (bid : ℕ)
    (g : BackendDelegate → BackendDelegate)
    (hg : ∀ b, (g b).instances = b.instances)
    (hb : st2.backends = mapVal bid g st.backends)
    (hm : st2.model_table = st.model_table)
    (hn : st.next_node_id ≤ st2.next_node_id)
    (hInv : Inv st) : Inv st2 := by
  constructor
  case nodupB => rw [hb, keysOf_mapVal]; exact hInv.nodupB
  case nodupM => rw [hm]; exact hInv.nodupM
  case nodupI =>
    intro id b hbk
    rw [hb] at hbk
    by_cases hid : id = bid
    · subst hid
      rw [alookup_mapVal_self] at hbk
      obtain ⟨b1, hb1, hgb⟩ := Option.map_eq_some'.1 hbk
      rw [← hgb, hg]
      exact hInv.nodupI id b1 hb1
    · rw [alookup_mapVal_ne bid id _ _ hid] at hbk
      exact hInv.nodupI id b hbk
  case nodupT => rw [hm]; exact hInv.nodupT
  case bound =>
    intro id hid
    rw [hb, keysOf_mapVal] at hid
    exact lt_of_lt_of_le (hInv.bound id hid) hn
  case forward =>
    intro m2 i2 bid2 r2 hm2 hbt2
    rw [hm] at hm2
    rw [hb]
    obtain ⟨b1, hb1, hbi1⟩ := hInv.forward m2 i2 bid2 r2 hm2 hbt2
    by_cases hbb : bid2 = bid
    · subst hbb
      refine ⟨g b1, ?_, ?_⟩
      · rw [alookup_mapVal_self, hb1]
        rfl
      · rw [hg]
        exact hbi1
    · refine ⟨b1, ?_, hbi1⟩
      rw [alookup_mapVal_ne bid bid2 _ _ hbb]
      exact hb1
  case backward =>
    intro bid2 b2 m2 r2 hb2 hi2
    rw [hb] at hb2
    rw [hm]
    by_cases hbb : bid2 = bid
    · subst hbb
      rw [alookup_mapVal_self] at hb2
      obtain ⟨b1, hb1, hgb⟩ := Option.map_eq_some'.1 hb2
      rw [← hgb, hg] at hi2
      exact hInv.backward bid2 b1 m2 r2 hb1 hi2
    · rw [alookup_mapVal_ne bid bid2 _ _ hbb] at hb2
      exact hInv.backward bid2 b2 m2 r2 hb2 hi2

theorem inv_upsert_table (st st2 : SchedulerState) (m : String)
    (g : ModelInfo → ModelInfo) (d : ModelInfo)
    (hg : ∀ i, (g i).backend_throughputs = i.backend_throughputs)
    (hd : d.backend_throughputs = [])
    (hb : st2.backends = st.backends)
    (hm : st2.model_table = upsert m g d st.model_table)
    (hn : st.next_node_id ≤ st2.next_node_id)
    (hInv : Inv st) : Inv st2 := by
  constructor
  case nodupB => rw [hb]; exact hInv.nodupB
  case nodupM => rw [hm]; exact keysOf_upsert_nodup _ _ _ _ hInv.nodupM
  case nodupI => rw [hb]; exact hInv.nodupI
  case nodupT =>
    intro m2 i hi
    rw [hm] at hi
    by_cases hmm : m2 = m
    · subst hmm
      cases hold : alookup m2 st.model_table with
      | some iold =>
        simp only [alookup_upsert_self, hold] at hi
        injection hi with hi
        rw [← hi, hg]
        exact hInv.nodupT m2 iold hold
      | none =>
        simp only [alookup_upsert_self, hold] at hi
        injection hi with hi
        rw [← hi, hd]
        simp [keysOf]
    · rw [alookup_upsert_ne m m2 _ _ _ hmm] at hi
      exact hInv.nodupT m2 i hi
  case bound =>
    intro id hid
    rw [hb] at hid
    exact lt_of_lt_of_le (hInv.bound id hid) hn
  case forward =>
    intro m2 i2 bid2 r2 hm2 hbt2
    rw [hm] at hm2
    rw [hb]
    by_cases hmm : m2 = m
    · subst hmm
      cases hold : alookup m2 st.model_table with
      | some iold =>
        simp only [alookup_upsert_self, hold] at hm2
        injection hm2 with hm2
        rw [← hm2, hg] at hbt2
        exact hInv.forward m2 iold bid2 r2 hold hbt2
      | none =>
        simp only [alookup_upsert_self, hold] at hm2
        injection hm2 with hm2
        rw [← hm2, hd, alookup_nil] at hbt2
        cases hbt2
    · rw [alookup_upsert_ne m m2 _ _ _ hmm] at hm2
      exact hInv.forward m2 i2 bid2 r2 hm2 hbt2
  case backward =>
    intro bid2 b2 m2 r2 hb2 hi2
    rw [hb] at hb2
    rw [hm]
    obtain ⟨i1, hti1, hbt1⟩ := hInv.backward bid2 b2 m2 r2 hb2 hi2
    by_cases hmm : m2 = m
    · subst hmm
      refine ⟨g i1, ?_, ?_⟩
      · simp only [alookup_upsert_self, hti1]
      · rw [hg]
        exact hbt1
    · refine ⟨i1, ?_, hbt1⟩
      rw [alookup_upsert_ne m m2 _ _ _ hmm]
      exact hti1

theorem inv_mapVal_table (st st2 : SchedulerState) (m : String)
    (g : ModelInfo → ModelInfo)
    (hg : ∀ i, (g i).backend_throughputs = i.backend_throughputs)
    (hb : st2.backends = st.backends)
    (hm : st2.model_table = mapVal m g st.model_table)
    (hn : st.next_node_id ≤ st2.next_node_id)
    (hInv : Inv st) : Inv st2 := by
  constructor
  case nodupB => rw [hb]; exact hInv.nodupB
  case nodupM => rw [hm, keysOf_mapVal]; exact hInv.nodupM
  case nodupI => rw [hb]; exact hInv.nodupI
  case nodupT =>
    intro m2 i hi
    rw [hm] at hi
    by_cases hmm : m2 = m
    · subst hmm
      rw [alookup_mapVal_self] at hi
      obtain ⟨i1, hi1, hgi⟩ := Option.map_eq_some'.1 hi
      rw [← hgi, hg]
      exact hInv.nodupT m2 i1 hi1
    · rw [alookup_mapVal_ne m m2 _ _ hmm] at hi
      exact hInv.nodupT m2 i hi
  case bound =>
    intro id hid
    rw [hb] at hid
    exact lt_of_lt_of_le (hInv.bound id hid) hn
  case forward =>
    intro m2 i2 bid2 r2 hm2 hbt2
    rw [hm] at hm2
    rw [hb]
    by_cases hmm : m2 = m
    · subst hmm
      rw [alookup_mapVal_self] at hm2
      obtain ⟨i1, hi1, hgi⟩ := Option.map_eq_some'.1 hm2
      rw [← hgi, hg] at hbt2
      exact hInv.forward m2 i1 bid2 r2 hi1 hbt2
    · rw [alookup_mapVal_ne m m2 _ _ hmm] at hm2
      exact hInv.forward m2 i2 bid2 r2 hm2 hbt2
  case backward =>
    intro bid2 b2 m2 r2 hb2 hi2
    rw [hb] at hb2
    rw [hm]
    obtain ⟨i1, hti1, hbt1⟩ := hInv.backward bid2 b2 m2 r2 hb2 hi2
    by_cases hmm : m2 = m
    · subst hmm
      refine ⟨g i1, ?_, ?_⟩
      · rw [alookup_mapVal_self, hti1]
        rfl
      · rw [hg]
        exact hbt1
    · refine ⟨i1, ?_, hbt1⟩
      rw [alookup_mapVal_ne m m2 _ _ hmm]
      exact hti1

theorem inv_eraseBackend (st st2 : SchedulerState) (bid : ℕ) (hInv : Inv st)
    (hb : st2.backends = eraseKey bid st.backends)
    (hm2 : st2.model_table = st.model_table.map
      (fun p => (p.1, dropThroughput bid p.2)))
    (hn : st.next_node_id ≤ st2.next_node_id) : Inv st2 := by
  have hg : ∀ i : ModelInfo,
      (dropThroughput bid i).backend_throughputs =
        eraseKey bid i.backend_throughputs := fun i => rfl
  constructor
  case nodupB => rw [hb]; exact nodup_keysOf_eraseKey bid st.backends hInv.nodupB
  case nodupM => rw [hm2, keysOf_map_val_all]; exact hInv.nodupM
  case nodupI =>
    intro id b hbk
    rw [hb] at hbk
    obtain ⟨_, hb1⟩ := alookup_eraseKey_some bid id _ b hbk
    exact hInv.nodupI id b hb1
  case nodupT =>
    intro m2 i hi
    rw [hm2, alookup_map_val_all] at hi
    obtain ⟨i1, hi1, hgi⟩ := Option.map_eq_some'.1 hi
    rw [← hgi, hg]
    exact nodup_keysOf_eraseKey bid i1.backend_throughputs
      (hInv.nodupT m2 i1 hi1)
  case bound =>
    intro id hid
    rw [hb] at hid
    obtain ⟨hid1, _⟩ := keysOf_eraseKey_subset bid st.backends id hid
    exact lt_of_lt_of_le (hInv.bound id hid1) hn
  case forward =>
    intro m2 i2 bid2 r2 hma hbt2
    rw [hm2, alookup_map_val_all] at hma
    rw [hb]
    obtain ⟨i1, hi1, hgi⟩ := Option.map_eq_some'.1 hma
    rw [← hgi, hg] at hbt2
    obtain ⟨hne, hbt1⟩ := alookup_eraseKey_some bid bid2 _ r2 hbt2
    obtain ⟨b1, hb1, hbi1⟩ := hInv.forward m2 i1 bid2 r2 hi1 hbt1
    refine ⟨b1, ?_, hbi1⟩
    rw [alookup_eraseKey_ne bid bid2 _ hne]
    exact hb1
  case backward =>
    intro bid2 b2 m2 r2 hb2 hi2
    rw [hb] at hb2
    rw [hm2]
    obtain ⟨hne, hb1⟩ := alookup_eraseKey_some bid bid2 _ b2 hb2
    obtain ⟨i1, hti1, hbt1⟩ := hInv.backward bid2 b2 m2 r2 hb1 hi2
    refine ⟨dropThroughput bid i1, ?_, ?_⟩
    · rw [alookup_map_val_all, hti1]
      rfl
    · rw [hg, alookup_eraseKey_ne bid bid2 _ hne]
      exact hbt1

theorem findBest_some_lookup (r : ℚ) (skips : List ℕ)
    (backs : List (ℕ × BackendDelegate)) (bid : ℕ) (sc : ℚ)
    (h : FindBestBackend r skips backs = some (bid, sc)) :
    ∃ b, alookup bid backs = some b := by
  obtain ⟨h1, _, _⟩ := findBestGo_some_spec r skips backs none (bid, sc) h
  have hc : (bid, sc) ∈ CandidateScores r skips backs := by
    rcases h1 with h1 | h1
    · exact absurd h1 (by simp)
    · exact h1
  obtain ⟨b, hb, _, _, _⟩ := (mem_candidateScores r skips backs (bid, sc)).1 hc
  have hmem : bid ∈ keysOf backs := by
    simp only [keysOf, List.mem_map]
    exact ⟨(bid, b), hb, rfl⟩
  obtain ⟨b2, hb2⟩ :=
    Option.isSome_iff_exists.1 ((alookup_isSome_iff bid backs).2 hmem)
  exact ⟨b2, hb2⟩

theorem inv_AllocateGo (l : List (String × ℚ)) :
    ∀ st : SchedulerState, Inv st → Inv (AllocateGo st l) := by
  induction l with
  | nil => intro st h; exact h
  | cons e t ih =>
    intro st h
    simp only [AllocateGo]
    cases hf : FindBestBackend e.2 [] st.backends with
    | none =>
      exact ih _ (inv_frame st _ h rfl rfl (le_refl _))
    | some q =>
      obtain ⟨bid, sc⟩ := q
      obtain ⟨b0, hb0⟩ := findBest_some_lookup e.2 [] st.backends bid sc hf
      exact ih _ (inv_LoadModelOn st e.1 bid e.2 b0 hb0 h)

theorem inv_AllocateUnassignedWorkloads (st : SchedulerState) (hInv : Inv st) :
    Inv (AllocateUnassignedWorkloads st) :=
  inv_AllocateGo st.unassigned_workloads _
    (inv_frame st _ hInv rfl rfl (le_refl _))

theorem inv_RegisterFrontend (st : SchedulerState) (now : ℚ) (hInv : Inv st) :
    Inv (RegisterFrontend st now) :=
  inv_frame st _ hInv rfl rfl (Nat.le_succ _)

theorem alookup_isSome_LoadModelOn (st : SchedulerState) (m : String)
    (bid id : ℕ) (r : ℚ) (h : (alookup id st.backends).isSome) :
    (alookup id (LoadModelOn st m bid r).backends).isSome := by
  rw [alookup_isSome_iff] at h ⊢
  rw [backends_keysOf_LoadModelOn]
  exact h

theorem inv_foldl_LoadModelOn (bid : ℕ) (decls : List (String × ℚ)) :
    ∀ st : SchedulerState, (alookup bid st.backends).isSome → Inv st →
      Inv (decls.foldl (fun s e => LoadModelOn s e.1 bid e.2) st) := by
  induction decls with
  | nil => intro st _ h; exact h
  | cons e t ih =>
    intro st hsome h
    rw [List.foldl_cons]
    obtain ⟨b0, hb0⟩ := Option.isSome_iff_exists.1 hsome
    exact ih _ (alookup_isSome_LoadModelOn st e.1 bid bid e.2 hsome)
      (inv_LoadModelOn st e.1 bid e.2 b0 hb0 h)

theorem inv_ClaimSlot (st : SchedulerState) (bid : ℕ) (i : ℕ)
    (hsome : (alookup bid st.backends).isSome) (hInv : Inv st) :
    Inv (ClaimSlot st bid i) := by
  unfold ClaimSlot
  have h1 : Inv { st with
      backends := mapVal bid (fun b => { b with exclusive := true }) st.backends,
      assigned_static_workloads :=
        st.assigned_static_workloads ++ [(i, bid)] } :=
    inv_mapVal_backend st _ bid (fun b => { b with exclusive := true })
      (fun b => rfl) rfl rfl (le_refl _) hInv
  refine inv_foldl_LoadModelOn bid _ _ ?_ h1
  show (alookup bid (mapVal bid (fun b => { b with exclusive := true })
    st.backends)).isSome
  rw [alookup_isSome_iff, keysOf_mapVal, ← alookup_isSome_iff]
  exact hsome

theorem inv_AddBackend (st : SchedulerState) (bid : ℕ) (hInv : Inv st) :
    Inv (AddBackend st bid) := by
  cases hg : GetBackend st bid with
  | none =>
    simp only [AddBackend, hg]
    exact hInv
  | some b =>
    simp only [AddBackend, hg]
    cases hslot : FirstFreeSlot st.assigned_static_workloads b
        st.static_workloads 0 with
    | some i =>
      refine inv_ClaimSlot st bid i ?_ hInv
      unfold GetBackend at hg
      rw [hg]
      rfl
    | none => exact inv_AllocateUnassignedWorkloads st hInv

theorem inv_AppendBackend (st : SchedulerState) (cap now : ℚ)
    (hInv : Inv st) : Inv (AppendBackend st cap now) := by
  have hBK : (AppendBackend st cap now).backends =
      st.backends ++ [(st.next_node_id, freshBackend cap now)] := rfl
  have hMT : (AppendBackend st cap now).model_table = st.model_table := rfl
  have hNN : (AppendBackend st cap now).next_node_id =
      st.next_node_id + 1 := rfl
  have hkeys : keysOf (st.backends ++ [(st.next_node_id, freshBackend cap now)]) =
      keysOf st.backends ++ [st.next_node_id] := by
    simp [keysOf]
  constructor
  case nodupB =>
    rw [hBK, hkeys]
    refine List.Nodup.append hInv.nodupB (List.nodup_singleton _) ?_
    intro x hx hmem
    have hxk : x = st.next_node_id := by simpa using hmem
    subst hxk
    exact lt_irrefl _ (hInv.bound _ hx)
  case nodupM => rw [hMT]; exact hInv.nodupM
  case nodupI =>
    intro id b hb
    rw [hBK, alookup_append] at hb
    cases hold : alookup id st.backends with
    | some b1 =>
      rw [hold] at hb
      injection hb with hb
      rw [← hb]
      exact hInv.nodupI id b1 hold
    | none =>
      rw [hold] at hb
      simp only [Option.none_or] at hb
      rw [alookup_cons] at hb
      by_cases hid : st.next_node_id = id
      · rw [if_pos hid] at hb
        injection hb with hb
        rw [← hb]
        simp [keysOf, freshBackend]
      · rw [if_neg hid, alookup_nil] at hb
        cases hb
  case nodupT => rw [hMT]; exact hInv.nodupT
  case bound =>
    intro id hid
    rw [hBK, hkeys] at hid
    rw [hNN]
    rcases List.mem_append.1 hid with h | h
    · exact lt_trans (hInv.bound id h) (Nat.lt_succ_self _)
    · have hidk : id = st.next_node_id := by simpa using h
      rw [hidk]
      exact Nat.lt_succ_self _
  case forward =>
    intro m2 i2 bid2 r2 hm2 hbt2
    rw [hMT] at hm2
    rw [hBK]
    obtain ⟨b1, hb1, hbi1⟩ := hInv.forward m2 i2 bid2 r2 hm2 hbt2
    refine ⟨b1, ?_, hbi1⟩
    rw [alookup_append, hb1]
    rfl
  case backward =>
    intro bid2 b2 m2 r2 hb2 hi2
    rw [hBK, alookup_append] at hb2
    rw [hMT]
    cases hold : alookup bid2 st.backends with
    | some b1 =>
      rw [hold] at hb2
      injection hb2 with hb2
      rw [← hb2] at hi2
      exact hInv.backward bid2 b1 m2 r2 hold hi2
    | none =>
      rw [hold] at hb2
      simp only [Option.none_or] at hb2
      rw [alookup_cons] at hb2
      by_cases hid : st.next_node_id = bid2
      · rw [if_pos hid] at hb2
        injection hb2 with hb2
        rw [← hb2] at hi2
        dsimp only [freshBackend] at hi2
        rw [alookup_nil] at hi2
        cases hi2
      · rw [if_neg hid, alookup_nil] at hb2
        cases hb2

theorem inv_RegisterBackend (st : SchedulerState) (cap now : ℚ)
    (hInv : Inv st) : Inv (RegisterBackend st cap now) :=
  inv_AddBackend (AppendBackend st cap now) st.next_node_id
    (inv_AppendBackend st cap now hInv)

theorem inv_ReassignStep (bid : ℕ) (s : SchedulerState) (e : String × ℚ)
    (hInv : Inv s) : Inv (ReassignStep bid s e) := by
  unfold ReassignStep
  cases hf : FindBestBackend e.2 [bid] s.backends with
  | none => exact inv_frame s _ hInv rfl rfl (le_refl _)
  | some q =>
    obtain ⟨bid2, sc⟩ := q
    obtain ⟨b0, hb0⟩ := findBest_some_lookup e.2 [bid] s.backends bid2 sc hf
    exact inv_LoadModelOn s e.1 bid2 e.2 b0 hb0 hInv

theorem inv_foldl_ReassignStep (bid : ℕ) (l : List (String × ℚ)) :
    ∀ s : SchedulerState, Inv s → Inv (l.foldl (ReassignStep bid) s) := by
  induction l with
  | nil => intro s h; exact h
  | cons e t ih =>
    intro s h
    rw [List.foldl_cons]
    exact ih _ (inv_ReassignStep bid s e h)

theorem inv_RemoveBackend (st : SchedulerState) (bid : ℕ) (hInv : Inv st) :
    Inv (RemoveBackend st bid) := by
  cases hg : GetBackend st bid with
  | none => simp only [RemoveBackend, hg]; exact hInv
  | some b =>
    simp only [RemoveBackend, hg]
    refine inv_foldl_ReassignStep bid b.instances _ ?_
    exact inv_eraseBackend st _ bid hInv rfl rfl (le_refl _)

theorem inv_DropSubscriber (st : SchedulerState) (m : String) (fid : ℕ)
    (hInv : Inv st) : Inv (DropSubscriber st m fid) := by
  cases hl : alookup m st.model_table with
  | none => simp only [DropSubscriber, hl]; exact hInv
  | some info =>
    simp only [DropSubscriber, hl]
    split
    · exact inv_DeleteSession st m hInv
    · exact inv_mapVal_table st _ m
        (fun i =>
          { i with subscribers := i.subscribers.filter (fun x => x ≠ fid) })
        (fun i => rfl) rfl rfl (le_refl _) hInv

theorem inv_foldl_DropSubscriber (fid : ℕ) (l : List String) :
    ∀ s : SchedulerState, Inv s →
      Inv (l.foldl (fun s m => DropSubscriber s m fid) s) := by
  induction l with
  | nil => intro s h; exact h
  | cons m t ih =>
    intro s h
    rw [List.foldl_cons]
    exact ih _ (inv_DropSubscriber s m fid h)

theorem inv_RemoveFrontend (st : SchedulerState) (fid : ℕ) (hInv : Inv st) :
    Inv (RemoveFrontend st fid) := by
  cases hg : GetFrontend st fid with
  | none => simp only [RemoveFrontend, hg]; exact hInv
  | some fr =>
    simp only [RemoveFrontend, hg]
    refine inv_foldl_DropSubscriber fid fr.subscriptions _ ?_
    exact inv_frame st _ hInv rfl rfl (le_refl _)

theorem inv_Unregister (st : SchedulerState) (id : ℕ) (hInv : Inv st) :
    Inv (Unregister st id).2 := by
  unfold Unregister
  split
  · exact inv_RemoveFrontend st id hInv
  · split
    · exact inv_RemoveBackend st id hInv
    · exact hInv

theorem inv_SubscribeFrontend (st : SchedulerState) (fid : ℕ) (m : String)
    (hInv : Inv st) : Inv (SubscribeFrontend st fid m) :=
  inv_frame st _ hInv rfl rfl (le_refl _)

theorem inv_EnsureModelInfo (st : SchedulerState) (fid : ℕ) (m : String)
    (hInv : Inv st) : Inv (EnsureModelInfo st fid m) :=
  inv_upsert_table st _ m
    (fun i =>
      { i with subscribers :=
                 if fid ∈ i.subscribers then i.subscribers
                 else i.subscribers ++ [fid] })
    { backend_throughputs := [], subscribers := [fid], rps_history := [] }
    (fun i => rfl) rfl rfl rfl (le_refl _) hInv

theorem inv_LoadModelState (st : SchedulerState) (fid : ℕ) (m : String)
    (r : ℚ) (hInv : Inv st) : Inv (LoadModelState st fid m r) := by
  unfold LoadModelState
  have h2 : Inv (EnsureModelInfo (SubscribeFrontend st fid m) fid m) :=
    inv_EnsureModelInfo _ fid m (inv_SubscribeFrontend st fid m hInv)
  refine inv_AllocateUnassignedWorkloads _ ?_
  split
  · exact h2
  · exact inv_frame _ _ h2 rfl rfl (le_refl _)

theorem inv_LoadModel (st : SchedulerState) (fid : ℕ) (m : String) (r : ℚ)
    (hInv : Inv st) : Inv (LoadModel st fid m r).2 := by
  cases hg : GetFrontend st fid with
  | none => simp only [LoadModel, hg]; exact hInv
  | some fr => simp only [LoadModel, hg]; exact inv_LoadModelState st fid m r hInv

theorem inv_KeepAlive (st : SchedulerState) (id : ℕ) (now : ℚ)
    (hInv : Inv st) : Inv (KeepAlive st id now).2 := by
  unfold KeepAlive
  split
  · exact inv_frame st _ hInv rfl rfl (le_refl _)
  · split
    · exact inv_mapVal_backend st _ id (fun b => { b with last_beacon := now })
        (fun b => rfl) rfl rfl (le_refl _) hInv
    · exact hInv

theorem inv_foldl_statsStep (samples : List (String × ℚ)) :
    ∀ s : SchedulerState, Inv s →
      Inv (samples.foldl (fun s e =>
        { s with model_table :=
                   mapVal e.1
                     (fun i =>
                       { i with rps_history :=
                                  truncateHistory s.history_len
                                    (i.rps_history ++ [e.2]) })
                     s.model_table }) s) := by
  induction samples with
  | nil => intro s h; exact h
  | cons e t ih =>
    intro s h
    rw [List.foldl_cons]
    refine ih _ ?_
    exact inv_mapVal_table s _ e.1
      (fun i =>
        { i with rps_history :=
                   truncateHistory s.history_len (i.rps_history ++ [e.2]) })
      (fun i => rfl) rfl rfl (le_refl _) h

theorem inv_UpdateBackendStats (st : SchedulerState) (bid : ℕ)
    (samples : List (String × ℚ)) (hInv : Inv st) :
    Inv (UpdateBackendStats st bid samples).2 := by
  cases hg : GetBackend st bid with
  | none => simp only [UpdateBackendStats, hg]; exact hInv
  | some b =>
    simp only [UpdateBackendStats, hg]
    exact inv_foldl_statsStep samples st hInv

theorem inv_foldl_RemoveBackend_gen (ids : List ℕ) :
    ∀ s : SchedulerState, Inv s → Inv (ids.foldl RemoveBackend s) := by
  induction ids with
  | nil => intro s h; exact h
  | cons id t ih =>
    intro s h
    rw [List.foldl_cons]
    exact ih _ (inv_RemoveBackend s id h)

theorem inv_foldl_RemoveFrontend_gen (ids : List ℕ) :
    ∀ s : SchedulerState, Inv s → Inv (ids.foldl RemoveFrontend s) := by
  induction ids with
  | nil => intro s h; exact h
  | cons id t ih =>
    intro s h
    rw [List.foldl_cons]
    exact ih _ (inv_RemoveFrontend s id h)

theorem inv_BeaconCheck (st : SchedulerState) (now : ℚ) (hInv : Inv st) :
    Inv (BeaconCheck st now) :=
  inv_foldl_RemoveFrontend_gen _ _
    (inv_foldl_RemoveBackend_gen _ _ hInv)

theorem inv_ShrinkGo (m : String) (target : ℚ) (fuel : ℕ) :
    ∀ st : SchedulerState, Inv st → Inv (ShrinkGo m target st fuel) := by
  induction fuel with
  | zero => intro st h; exact h
  | succ n ih =>
    intro st h
    cases hl : alookup m st.model_table with
    | none => simp only [ShrinkGo, hl]; exact h
    | some info =>
      simp only [ShrinkGo, hl]
      split
      · exact h
      · split
        · exact h
        · split
          · exact ih _ (inv_UnloadModelFrom st m _ h)
          · exact inv_SetReservation st m _ _ h

theorem inv_EpochSessionStep (st : SchedulerState) (m : String)
    (hInv : Inv st) : Inv (EpochSessionStep st m) := by
  cases hl : alookup m st.model_table with
  | none => simp only [EpochSessionStep, hl]; exact hInv
  | some info =>
    simp only [EpochSessionStep, hl]
    split
    · exact inv_frame st _ hInv rfl rfl (le_refl _)
    · split
      · have h1 : Inv (ShrinkGo m (MeasuredRps info) st
            info.backend_throughputs.length) :=
          inv_ShrinkGo m (MeasuredRps info) _ st hInv
        split
        · split
          · exact inv_DeleteSession _ m h1
          · exact h1
        · exact h1
      · exact hInv

theorem inv_EpochPass (st : SchedulerState) (hInv : Inv st) :
    Inv (EpochPass st) := by
  unfold EpochPass
  generalize keysOf st.model_table = ms
  induction ms generalizing st with
  | nil => exact hInv
  | cons m t ih =>
    rw [List.foldl_cons]
    exact ih _ (inv_EpochSessionStep st m hInv)

theorem inv_EpochSchedule (st : SchedulerState) (hInv : Inv st) :
    Inv (EpochSchedule st) :=
  inv_AllocateUnassignedWorkloads _ (inv_EpochPass st hInv)

theorem inv_Step (st st2 : SchedulerState) (hs : Step st st2) (hInv : Inv st) :
    Inv st2 := by
  cases hs with
  | registerBackend cap now => exact inv_RegisterBackend st cap now hInv
  | registerFrontend now => exact inv_RegisterFrontend st now hInv
  | unregister id => exact inv_Unregister st id hInv
  | loadModel fid m r => exact inv_LoadModel st fid m r hInv
  | updateStats bid samples => exact inv_UpdateBackendStats st bid samples hInv
  | keepAlive id now => exact inv_KeepAlive st id now hInv
  | beacon now => exact inv_BeaconCheck st now hInv
  | epoch => exact inv_EpochSchedule st hInv

theorem inv_InitState (slots : List (List (String × ℚ))) (beacon hist : ℕ) :
    Inv (InitState slots beacon hist) := by
  constructor
  case nodupB => exact List.nodup_nil
  case nodupM => exact List.nodup_nil
  case nodupI => intro id b hb; cases hb
  case nodupT => intro m i hi; cases hi
  case bound => intro id hid; cases hid
  case forward => intro m i bid r hm _; cases hm
  case backward => intro bid b m r hb _; cases hb

theorem inv_Reachable (slots : List (List (String × ℚ))) (beacon hist : ℕ)
    (st : SchedulerState) (h : Reachable slots beacon hist st) : Inv st := by
  unfold Reachable at h
  induction h with
  | refl => exact inv_InitState slots beacon hist
  | tail _ hstep ih => exact inv_Step _ _ hstep ih

theorem sumVals_split (k : ℕ) (l : List (ℕ × ℚ)) (hnd : (keysOf l).Nodup) :
    sumVals l = (alookup k l).getD 0 + sumVals (eraseKey k l) := by
  induction l with
  | nil => simp [sumVals, eraseKey]
  | cons p t ih =>
    have hnd2 : (keysOf t).Nodup := by
      simp only [keysOf, List.map_cons, List.nodup_cons] at hnd
      exact hnd.2
    have hs : sumVals (p :: t) = p.2 + sumVals t := by simp [sumVals]
    by_cases hp : p.1 = k
    · have hkt : alookup k t = none := by
        rw [alookup_eq_none_iff, ← hp]
        simp only [keysOf, List.map_cons, List.nodup_cons] at hnd
        exact hnd.1
      have het : eraseKey k (p :: t) = eraseKey k t := by
        simp [eraseKey, List.filter_cons, hp]
      rw [het, eraseKey_eq_self_of_alookup_none k t hkt, alookup_cons,
        if_pos hp, Option.getD_some, hs]
    · have he2 : eraseKey k (p :: t) = p :: eraseKey k t := by
        simp [eraseKey, List.filter_cons, hp]
      have hs2 : sumVals (p :: eraseKey k t) = p.2 + sumVals (eraseKey k t) := by
        simp [sumVals]
      rw [he2, alookup_cons, if_neg hp, hs2, hs, ih hnd2]
      ring

theorem sumVals_of_pointwise (m : String) :
    ∀ (B : List (ℕ × BackendDelegate)) (l : List (ℕ × ℚ)),
      (keysOf l).Nodup → (keysOf B).Nodup →
      (∀ k ∈ keysOf l, k ∈ keysOf B) →
      (∀ p ∈ B, alookup m p.2.instances = alookup p.1 l) →
      sumVals l = (B.map (fun p => p.2.Throughput m)).sum := by
  intro B
  induction B with
  | nil =>
    intro l _ _ hsub _
    cases l with
    | nil => simp [sumVals]
    | cons p t =>
      exact absurd (hsub p.1 (by simp [keysOf])) (by simp [keysOf])
  | cons q B2 ih =>
    intro l hndl hndB hsub hpt
    have hndB2 : (keysOf B2).Nodup := by
      simp only [keysOf, List.map_cons, List.nodup_cons] at hndB
      exact hndB.2
    have hq1 : q.1 ∉ keysOf B2 := by
      simp only [keysOf, List.map_cons, List.nodup_cons] at hndB
      exact hndB.1
    have hql : alookup m q.2.instances = alookup q.1 l :=
      hpt q (List.mem_cons_self q B2)
    have hsub2 : ∀ k ∈ keysOf (eraseKey q.1 l), k ∈ keysOf B2 := by
      intro k hk
      obtain ⟨hkl, hkq⟩ := (mem_keysOf_eraseKey_iff q.1 k l).1 hk
      have hkB := hsub k hkl
      simp only [keysOf, List.map_cons, List.mem_cons] at hkB
      rcases hkB with h | h
      · exact absurd h hkq
      · exact h
    have hpt2 : ∀ p ∈ B2,
        alookup m p.2.instances = alookup p.1 (eraseKey q.1 l) := by
      intro p hp
      have hne : p.1 ≠ q.1 := by
        intro he
        apply hq1
        rw [← he]
        simp only [keysOf, List.mem_map]
        exact ⟨p, hp, rfl⟩
      rw [alookup_eraseKey_ne q.1 p.1 l hne]
      exact hpt p (List.mem_cons_of_mem q hp)
    have hih := ih (eraseKey q.1 l) (nodup_keysOf_eraseKey q.1 l hndl)
      hndB2 hsub2 hpt2
    rw [List.map_cons, List.sum_cons]
    have hfq : q.2.Throughput m = (alookup q.1 l).getD 0 := by
      rw [BackendDelegate.Throughput, hql]
    rw [hfq, ← hih]
    exact sumVals_split q.1 l hndl

theorem inv_total_eq_sum (st : SchedulerState) (hInv : Inv st) (m : String)
    (i : ModelInfo) (hm : alookup m st.model_table = some i) :
    i.total_throughput = (st.backends.map (fun p => p.2.Throughput m)).sum := by
  have h0 : i.total_throughput = sumVals i.backend_throughputs := by
    rw [ModelInfo.total_throughput, foldl_add_sumVals, zero_add]
  rw [h0]
  refine sumVals_of_pointwise m st.backends i.backend_throughputs
    (hInv.nodupT m i hm) hInv.nodupB ?_ ?_
  · intro k hk
    obtain ⟨r, hr⟩ := Option.isSome_iff_exists.1
      ((alookup_isSome_iff k i.backend_throughputs).2 hk)
    obtain ⟨b, hb, _⟩ := hInv.forward m i k r hm hr
    rw [← alookup_isSome_iff, hb]
    rfl
  · intro p hp
    have hbp : alookup p.1 st.backends = some p.2 :=
      mem_alookup p.1 p.2 st.backends hInv.nodupB hp
    exact (inv_align st hInv m i p.1 p.2 hm hbp).symm

/-- **C1.** In every state reachable from boot by completed mutations, each
`(session, backend_id)` entry of any `ModelInfo.backend_throughputs` points at
a backend present in the backends table whose `instances[session]` exists with
the same reserved RPS, and consequently each session's `total_throughput()`
equals the sum over all backends of `backend.Throughput(session)` (spec §3
invariants 2 and 5). -/
theorem C1_reachable_consistency (slots : List (List (String × ℚ)))
    (beacon hist : ℕ) (st : SchedulerState)
    (h : Reachable slots beacon hist st) :
    ∀ m i, alookup m st.model_table = some i →
      (∀ bid r, alookup bid i.backend_throughputs = some r →
        ∃ b, alookup bid st.backends = some b ∧
          alookup m b.instances = some r) ∧
      i.total_throughput =
        (st.backends.map (fun p => p.2.Throughput m)).sum := by
  have hInv := inv_Reachable slots beacon hist st h
  intro m i hm
  exact ⟨fun bid r hbt => hInv.forward m i bid r hm hbt,
    inv_total_eq_sum st hInv m i hm⟩

/-- Witness for C1: the state reached by registering one backend and one
frontend from boot is reachable, and the consistency property holds there. -/
theorem C1_reachable_consistency_witness :
    Reachable [] 4 10
      (RegisterFrontend (RegisterBackend (InitState [] 4 10) 100 0) 0) ∧
    (∀ m i,
      alookup m
        (RegisterFrontend
          (RegisterBackend (InitState [] 4 10) 100 0) 0).model_table =
        some i →
      (∀ bid r, alookup bid i.backend_throughputs = some r →
        ∃ b,
          alookup bid
            (RegisterFrontend
              (RegisterBackend (InitState [] 4 10) 100 0) 0).backends =
            some b ∧ alookup m b.instances = some r) ∧
      i.total_throughput =
        ((RegisterFrontend
            (RegisterBackend (InitState [] 4 10) 100 0) 0).backends.map
          (fun p => p.2.Throughput m)).sum) :=
  have hr : Reachable [] 4 10
      (RegisterFrontend (RegisterBackend (InitState [] 4 10) 100 0) 0) :=
    Relation.ReflTransGen.tail
      (Relation.ReflTransGen.tail Relation.ReflTransGen.refl
        (Step.registerBackend (InitState [] 4 10) 100 0))
      (Step.registerFrontend (RegisterBackend (InitState [] 4 10) 100 0) 0)
  ⟨hr, C1_reachable_consistency [] 4 10 _ hr⟩

/-- Witness for C2: the characterization instantiated on the concrete sample
state's backend table at request rate 50 with an empty skip set. -/
theorem C2_FindBestBackend_spec_witness :
    (keysOf sampleState.backends).Nodup ∧
    ((FindBestBackend 50 [] sampleState.backends = none ↔
      ∀ p ∈ sampleState.backends,
        p.1 ∈ ([] : List ℕ) ∨ p.2.exclusive = true ∨
          PrepareLoadModel p.2 50 = none) ∧
    (∀ bid sc, FindBestBackend 50 [] sampleState.backends = some (bid, sc) →
      ∃ b, alookup bid sampleState.backends = some b ∧
        bid ∉ ([] : List ℕ) ∧ b.exclusive = false ∧
        PrepareLoadModel b 50 = some sc ∧
        ∀ id2 b2 sc2, (id2, b2) ∈ sampleState.backends →
          id2 ∉ ([] : List ℕ) → b2.exclusive = false →
          PrepareLoadModel b2 50 = some sc2 →
          sc < sc2 ∨ (sc = sc2 ∧ bid ≤ id2))) :=
  ⟨by decide, FindBestBackend_spec 50 [] sampleState.backends (by decide)⟩
